import Mathlib

/-!
Verification of the road-matching core of the `overture_demo` repository.

The matching engine lives in `src/server/matching.py` (class `RoadMatcher`),
the streaming controller and upload endpoint in `src/server/app.py`.

Modelling conventions:
* Coordinates are rational numbers (`ℚ`).  The Python code computes with IEEE
  doubles, every one of which is a rational; we idealise float arithmetic as
  exact rational arithmetic.
* The two external geometry libraries are modelled as follows:
  - `shapely` polyline operations (`project`/`interpolate`, i.e. the closest
    point on a polyline and the bounding-box candidate query of `STRtree`)
    are re-implemented here from their documented exact semantics, using
    squared distances so that everything stays rational;
  - the `pyproj` transformer `to_metric` (EPSG:4326 → EPSG:3857) is an
    external collaborator and is kept as an explicit parameter `toMetric`
    of the model; theorems that need a property of the real Web-Mercator
    projection (its minimal linear expansion factor) take that property as
    an explicit hypothesis.
* `RoadMatcher._compute_bearing` needs arc-length interpolation and
  `atan2`, which are genuinely real-valued; the rational matching pipeline
  therefore takes the bearing computation as an oracle parameter
  `bearing`, and the bearing function itself is modelled separately over
  `ℝ` (`computeBearingR` below) for the claims about its internals.
* The only comparison the source makes on a non-squared distance is
  `distance_m > self.radius_m`; for a radius `r` and a squared distance
  `dsq` this is equivalent to `¬(0 ≤ r ∧ dsq ≤ r ^ 2)`, which is how the
  survivor filter is written here (rational, hence decidable).
-/

/-- A geographic point `(lon, lat)` in degrees, or a point of the metric
frame, depending on context (mirrors shapely `Point`). -/
abbrev Pt : Type := ℚ × ℚ

/-- A polyline as an ordered list of vertices (mirrors shapely `LineString`;
the catalog invariant is that indexed polylines have at least 2 vertices). -/
abbrev Polyline : Type := List Pt

/-- Componentwise difference of two points. -/
def ptSub (a b : Pt) : Pt := (a.1 - b.1, a.2 - b.2)

/-- Dot product. -/
def ptDot (a b : Pt) : ℚ := a.1 * b.1 + a.2 * b.2

/-- Squared Euclidean distance between two points. -/
def sqDist (a b : Pt) : ℚ := (a.1 - b.1) ^ 2 + (a.2 - b.2) ^ 2

/-- Closest point to `p` on the segment from `a` to `b` (the exact semantics
of shapely projection onto one segment): parameter `t` is the clamped
normalised projection of `p - a` onto `b - a`. -/
def segClosest (a b p : Pt) : Pt :=
  let d := ptSub b a
  let den := ptDot d d
  if den = 0 then a
  else
    let t := min 1 (max 0 (ptDot (ptSub p a) d / den))
    (a.1 + t * d.1, a.2 + t * d.2)

/-- Closest point to `p` on a polyline: the minimum over the polyline's
segments of the per-segment closest point, earlier segments winning ties
(the semantics of `geom.interpolate(geom.project(point))` in
`RoadMatcher.match`, src/server/matching.py line 218).  Degenerate inputs
(fewer than 2 vertices) never occur for indexed segments. -/
def closestPointOnPolyline (l : Polyline) (p : Pt) : Pt :=
  match l with
  | [] => p
  | a :: rest =>
    (List.zip (a :: rest) rest).foldl
      (fun best ab =>
        if sqDist (segClosest ab.1 ab.2 p) p < sqDist best p then segClosest ab.1 ab.2 p
        else best) a

/-- Axis-aligned bounding box. -/
structure Box where
  lox : ℚ
  loy : ℚ
  hix : ℚ
  hiy : ℚ
deriving DecidableEq

/-- Box membership. -/
def Box.holds (b : Box) (p : Pt) : Bool :=
  decide (b.lox ≤ p.1) && decide (p.1 ≤ b.hix) &&
  decide (b.loy ≤ p.2) && decide (p.2 ≤ b.hiy)

/-- Bounding-box intersection test (the extent-vs-extent test performed by
`STRtree.query` with no predicate). -/
def boxIntersects (a b : Box) : Bool :=
  decide (a.lox ≤ b.hix) && decide (b.lox ≤ a.hix) &&
  decide (a.loy ≤ b.hiy) && decide (b.loy ≤ a.hiy)

/-- Bounding box of a polyline (fold of min/max over its vertices; the value
for `[]` is arbitrary, the catalog never indexes an empty polyline). -/
def bboxOf (l : Polyline) : Box :=
  match l with
  | [] => ⟨0, 0, 0, 0⟩
  | a :: rest =>
    rest.foldl
      (fun bx q => ⟨min bx.lox q.1, min bx.loy q.2, max bx.hix q.1, max bx.hiy q.2⟩)
      ⟨a.1, a.2, a.1, a.2⟩

/-- The query rectangle: the bounding box of `point.buffer(bufferDeg)`
(src/server/matching.py line 205); a shapely point buffer polygon has its
extreme vertices exactly on the axes, so its extent is this square. -/
def queryBox (p : Pt) (b : ℚ) : Box := ⟨p.1 - b, p.2 - b, p.1 + b, p.2 + b⟩

/-- `buffer_deg = self.radius_m / 111000 * 1.5` (src/server/matching.py
line 202). -/
def bufferDeg (r : ℚ) : ℚ := r / 111000 * (3 / 2)

/-- Python float `%` with a positive modulus: `a - b * ⌊a / b⌋`. -/
def qmod (a b : ℚ) : ℚ := a - b * ⌊a / b⌋

/-- The alignment test of `RoadMatcher.match` (src/server/matching.py lines
230-239): `diff = abs(heading - bearing) % 180; if diff > 90: diff = 180 -
diff; aligned iff diff ≤ 60`. -/
def alignedCheck (heading lineBearing : ℚ) : Bool :=
  let diff := qmod |heading - lineBearing| 180
  let diff2 := if diff > 90 then 180 - diff else diff
  decide (diff2 ≤ 60)

/-- One entry of the `possible_matches` list built by `RoadMatcher.match`
(src/server/matching.py lines 241-247).  `dsq` is the squared metric-frame
distance (the source's `distance_m` is `Real.sqrt dsq`); instead of the
source's integer index into `self.geometries` the candidate carries the
geometry itself. -/
structure Candidate where
  segment_id : String
  geom : Polyline
  dsq : ℚ
  snapped : Pt
  aligned : Bool
deriving DecidableEq

/-- Build the candidate record for one index hit: snap the point, measure the
squared metric distance, and (for the survivors) record the alignment flag
(src/server/matching.py lines 213-247; the source computes `aligned` only
after the radius test, which yields the same record). -/
def candidateOf (toMetric : Pt → Pt) (bearing : Polyline → Pt → ℚ)
    (heading : Option ℚ) (p : Pt) (sid : String) (geom : Polyline) : Candidate :=
  let snapped := closestPointOnPolyline geom p
  let dsq := sqDist (toMetric p) (toMetric snapped)
  let aligned :=
    match heading with
    | none => true
    | some h => alignedCheck h (bearing geom snapped)
  ⟨sid, geom, dsq, snapped, aligned⟩

/-- The candidate records for the index hits of the query buffer, in index
order: `STRtree.query(point.buffer(buffer_deg))` returns exactly the indexed
geometries whose extent intersects the buffer's extent
(src/server/matching.py lines 205-213). -/
def candidateList (toMetric : Pt → Pt) (bearing : Polyline → Pt → ℚ)
    (heading : Option ℚ) (p : Pt) (b : ℚ) :
    List (String × Polyline) → List Candidate
  | [] => []
  | (sid, geom) :: rest =>
    (if boxIntersects (bboxOf geom) (queryBox p b) then
      [candidateOf toMetric bearing heading p sid geom]
    else []) ++ candidateList toMetric bearing heading p b rest

/-- The radius filter `if distance_m > self.radius_m: continue`
(src/server/matching.py line 225): for squared distances,
`¬(√dsq > r) ↔ 0 ≤ r ∧ dsq ≤ r ^ 2`. -/
def survivesRadius (r : ℚ) (c : Candidate) : Bool :=
  decide (0 ≤ r) && decide (c.dsq ≤ r ^ 2)

/-- The matcher's static data: the metric projection (pyproj, an external
collaborator, kept as a parameter), the bearing computation (modelled over
`ℝ` separately, an oracle here), the matching radius and the indexed
segments (id and geometry, mirroring `self.segment_ids`/`self.geometries`). -/
structure Matcher where
  toMetric : Pt → Pt
  bearing : Polyline → Pt → ℚ
  radius : ℚ
  segs : List (String × Polyline)

/-- `possible_matches` after the radius filter: all candidates of the index
query that survive `distance_m > self.radius_m` (src/server/matching.py
lines 211-247). -/
def survivors (M : Matcher) (lon lat : ℚ) (heading : Option ℚ) : List Candidate :=
  (candidateList M.toMetric M.bearing heading (lon, lat) (bufferDeg M.radius) M.segs).filter
    (survivesRadius M.radius)

/-- `x` is strictly smaller than `y` under the sort key
`(not aligned, distance)` of src/server/matching.py line 255 (distance order
= squared-distance order). -/
def betterCand (x y : Candidate) : Bool :=
  (!y.aligned && x.aligned) || ((x.aligned == y.aligned) && decide (x.dsq < y.dsq))

/-- `possible_matches.sort(key=...)` followed by `possible_matches[0]`
(src/server/matching.py lines 255-257): the first element of the stable sort
is the first candidate with minimal key, computed here by a fold that
replaces the current best only on a strictly smaller key. -/
def selectBest : List Candidate → Option Candidate
  | [] => none
  | c :: cs => some (cs.foldl (fun best x => if betterCand x best then x else best) c)

/-- `RoadMatcher._choose_direction` (src/server/matching.py lines 141-153).
The source computes the bearing by projecting the original query point onto
the line; its snap position is the same as the matched snapped point's. -/
def chooseDirection (bearing : Polyline → Pt → ℚ) (line : Polyline) (p : Pt)
    (heading : Option ℚ) : String :=
  match heading with
  | none => "fwd"
  | some h =>
    let lineBearing := bearing line p
    let diff := |h - lineBearing|
    let diff2 := if diff > 180 then 360 - diff else diff
    if diff2 ≤ 90 then "fwd" else "rev"

/-- Python `round(x, n)` in exact arithmetic: round half to even at the
`10 ^ n` grid.  `round` (Mathlib) rounds half up; a tie is exactly the case
`Int.fract x = 1 / 2`, where half-even is `2 * round (x / 2)`. -/
noncomputable def roundHalfEven (x : ℝ) : ℤ :=
  if Int.fract x = 1 / 2 then 2 * round (x / 2) else round x

/-- Python `round(x, 2)` over `ℝ` (used for `match_distance_m`,
src/server/matching.py line 273). -/
noncomputable def round2 (x : ℝ) : ℝ := (roundHalfEven (x * 100) : ℝ) / 100

/-- Python `round(x, n)` over `ℚ` (ties at half round to even). -/
def qRoundHalfEven (x : ℚ) : ℤ :=
  if Int.fract x = 1 / 2 then 2 * round (x / 2) else round x

/-- Python `round(x, 6)` over `ℚ` (used for the snapped coordinates,
src/server/matching.py lines 274-275). -/
def qround6 (x : ℚ) : ℚ := (qRoundHalfEven (x * 1000000) : ℚ) / 1000000

/-- The `MatchResult` dataclass (src/server/matching.py lines 14-23). -/
structure MatchResult where
  matched : Bool
  segment_id : Option String := none
  display_segment_key : Option String := none
  directed_id : Option String := none
  match_distance_m : Option ℝ := none
  snapped_lon : Option ℚ := none
  snapped_lat : Option ℚ := none

/-- `RoadMatcher.match` (src/server/matching.py lines 193-276).  The
`self.tree is None` guard is the case of an empty segment list (the index is
only built over a non-empty geometry list); the two early
`MatchResult(matched=False)` returns for an empty query result and an empty
`possible_matches` are both the `selectBest = none` case. -/
noncomputable def RoadMatcher.matchPoint (M : Matcher) (lon lat : ℚ)
    (heading : Option ℚ := none) : MatchResult :=
  if M.segs = [] then { matched := false }
  else
    match selectBest (survivors M lon lat heading) with
    | none => { matched := false }
    | some best =>
      let direction := chooseDirection M.bearing best.geom (lon, lat) heading
      { matched := true
        segment_id := some best.segment_id
        display_segment_key := some best.segment_id
        directed_id := some (best.segment_id ++ ":" ++ direction)
        match_distance_m := some (round2 (Real.sqrt (best.dsq : ℝ)))
        snapped_lon := some (qround6 best.snapped.1)
        snapped_lat := some (qround6 best.snapped.2) }

/-! ### Selection: the comparator `(alignment descending, distance ascending)` -/

/-- `x` is at most `y` under the sort key `(not aligned, squared distance)`:
either `x` is aligned and `y` is not, or they are in the same alignment class
and `x` is at most as far. -/
def KeyLe (x y : Candidate) : Prop :=
  (x.aligned = true ∧ y.aligned = false) ∨ (x.aligned = y.aligned ∧ x.dsq ≤ y.dsq)

theorem keyLe_refl (x : Candidate) : KeyLe x x := Or.inr ⟨rfl, le_refl _⟩

theorem keyLe_trans {x y z : Candidate} (h1 : KeyLe x y) (h2 : KeyLe y z) : KeyLe x z := by
  cases hx : x.aligned <;> cases hy : y.aligned <;> cases hz : z.aligned <;>
    simp_all [KeyLe] <;> linarith

theorem keyLe_of_betterCand {x y : Candidate} (h : betterCand x y = true) : KeyLe x y := by
  cases hx : x.aligned <;> cases hy : y.aligned <;>
    simp_all [betterCand, KeyLe] <;> linarith

theorem keyLe_of_not_betterCand {x y : Candidate} (h : betterCand x y = false) : KeyLe y x := by
  cases hx : x.aligned <;> cases hy : y.aligned <;>
    simp_all [betterCand, KeyLe] <;> linarith

theorem selectBest_foldl_mem (cs : List Candidate) (c : Candidate) :
    cs.foldl (fun best x => if betterCand x best then x else best) c ∈ c :: cs := by
  induction cs generalizing c with
  | nil => simp
  | cons y ys ih =>
    simp only [List.foldl_cons]
    by_cases hb : betterCand y c = true
    · simp only [hb, if_pos]
      have := ih y
      simp only [List.mem_cons] at this ⊢
      tauto
    · simp only [Bool.not_eq_true] at hb
      simp only [hb, Bool.false_eq_true, if_neg, not_false_iff]
      have := ih c
      simp only [List.mem_cons] at this ⊢
      tauto

theorem selectBest_foldl_min (cs : List Candidate) (c : Candidate) :
    ∀ x ∈ c :: cs, KeyLe (cs.foldl (fun best x => if betterCand x best then x else best) c) x := by
  induction cs generalizing c with
  | nil =>
    intro x hx
    simp only [List.mem_singleton] at hx
    subst hx
    exact keyLe_refl _
  | cons y ys ih =>
    intro x hx
    simp only [List.foldl_cons]
    by_cases hb : betterCand y c = true
    · simp only [hb, if_pos]
      rcases List.mem_cons.1 hx with hxc | hx2
      · subst hxc
        exact keyLe_trans (ih y y (List.mem_cons_self _ _)) (keyLe_of_betterCand hb)
      · exact ih y x hx2
    · simp only [Bool.not_eq_true] at hb
      simp only [hb, Bool.false_eq_true, if_neg, not_false_iff]
      rcases List.mem_cons.1 hx with hxc | hx2
      · subst hxc
        exact ih x x (List.mem_cons_self _ _)
      · rcases List.mem_cons.1 hx2 with hxy | hx3
        · subst hxy
          exact keyLe_trans (ih c c (List.mem_cons_self _ _)) (keyLe_of_not_betterCand hb)
        · exact ih c x (List.mem_cons_of_mem _ hx3)

theorem selectBest_mem {l : List Candidate} {b : Candidate} (h : selectBest l = some b) :
    b ∈ l := by
  cases l with
  | nil => simp [selectBest] at h
  | cons c cs =>
    simp only [selectBest, Option.some.injEq] at h
    subst h
    exact selectBest_foldl_mem cs c

theorem selectBest_min {l : List Candidate} {b : Candidate} (h : selectBest l = some b) :
    ∀ c ∈ l, KeyLe b c := by
  cases l with
  | nil => simp [selectBest] at h
  | cons c cs =>
    simp only [selectBest, Option.some.injEq] at h
    subst h
    exact selectBest_foldl_min cs c

theorem selectBest_ne_none {l : List Candidate} (h : l ≠ []) :
    ∃ b, selectBest l = some b := by
  cases l with
  | nil => exact absurd rfl h
  | cons c cs => exact ⟨_, rfl⟩

/-! ### Membership in the candidate and survivor lists -/

theorem mem_candidateList {toMetric : Pt → Pt} {bearing : Polyline → Pt → ℚ}
    {heading : Option ℚ} {p : Pt} {b : ℚ} {segs : List (String × Polyline)}
    {c : Candidate} :
    c ∈ candidateList toMetric bearing heading p b segs ↔
      ∃ sid geom, (sid, geom) ∈ segs ∧
        boxIntersects (bboxOf geom) (queryBox p b) = true ∧
        c = candidateOf toMetric bearing heading p sid geom := by
  induction segs with
  | nil => simp [candidateList]
  | cons sg rest ih =>
    obtain ⟨sid, geom⟩ := sg
    by_cases hbx : boxIntersects (bboxOf geom) (queryBox p b) = true
    · simp only [candidateList, hbx, if_pos, List.singleton_append, List.mem_cons, ih]
      constructor
      · rintro (rfl | ⟨s2, g2, hm, hb2, rfl⟩)
        · exact ⟨sid, geom, Or.inl rfl, hbx, rfl⟩
        · exact ⟨s2, g2, Or.inr hm, hb2, rfl⟩
      · rintro ⟨s2, g2, heq | hm2, hb2, rfl⟩
        · rw [Prod.mk.injEq] at heq
          obtain ⟨rfl, rfl⟩ := heq
          left
          rfl
        · exact Or.inr ⟨s2, g2, hm2, hb2, rfl⟩
    · simp only [candidateList, hbx, if_neg, Bool.false_eq_true, not_false_iff,
        List.nil_append, ih, List.mem_cons]
      constructor
      · rintro ⟨s2, g2, hm, hb2, rfl⟩
        exact ⟨s2, g2, Or.inr hm, hb2, rfl⟩
      · rintro ⟨s2, g2, heq | hm2, hb2, rfl⟩
        · rw [Prod.mk.injEq] at heq
          obtain ⟨rfl, rfl⟩ := heq
          exact absurd hb2 hbx
        · exact ⟨s2, g2, hm2, hb2, rfl⟩

theorem mem_survivors {M : Matcher} {lon lat : ℚ} {heading : Option ℚ} {c : Candidate} :
    c ∈ survivors M lon lat heading ↔
      (∃ sid geom, (sid, geom) ∈ M.segs ∧
        boxIntersects (bboxOf geom) (queryBox (lon, lat) (bufferDeg M.radius)) = true ∧
        c = candidateOf M.toMetric M.bearing heading (lon, lat) sid geom) ∧
      (0 ≤ M.radius ∧ c.dsq ≤ M.radius ^ 2) := by
  simp [survivors, List.mem_filter, mem_candidateList, survivesRadius]

/-! ### Bounding boxes contain their polyline, including snapped points -/

/-- Propositional box membership. -/
def InBox (b : Box) (p : Pt) : Prop :=
  b.lox ≤ p.1 ∧ p.1 ≤ b.hix ∧ b.loy ≤ p.2 ∧ p.2 ≤ b.hiy

theorem boxIntersects_of_common {b1 b2 : Box} {q : Pt}
    (h1 : InBox b1 q) (h2 : InBox b2 q) : boxIntersects b1 b2 = true := by
  obtain ⟨a1, a2, a3, a4⟩ := h1
  obtain ⟨c1, c2, c3, c4⟩ := h2
  simp only [boxIntersects, Bool.and_eq_true, decide_eq_true_eq]
  exact ⟨⟨⟨le_trans a1 c2, le_trans c1 a2⟩, le_trans a3 c4⟩, le_trans c3 a4⟩

theorem bboxStep_mono {bx : Box} {p q : Pt} (h : InBox bx p) :
    InBox ⟨min bx.lox q.1, min bx.loy q.2, max bx.hix q.1, max bx.hiy q.2⟩ p := by
  obtain ⟨a1, a2, a3, a4⟩ := h
  exact ⟨le_trans (min_le_left _ _) a1, le_trans a2 (le_max_left _ _),
    le_trans (min_le_left _ _) a3, le_trans a4 (le_max_left _ _)⟩

theorem bboxFold_mono (rest : List Pt) (bx : Box) {p : Pt} (h : InBox bx p) :
    InBox (rest.foldl
      (fun bx q => ⟨min bx.lox q.1, min bx.loy q.2, max bx.hix q.1, max bx.hiy q.2⟩) bx) p := by
  induction rest generalizing bx with
  | nil => exact h
  | cons q qs ih => exact ih _ (bboxStep_mono h)

theorem bboxFold_self (rest : List Pt) {q : Pt} (h : q ∈ rest) (bx : Box) :
    InBox (rest.foldl
      (fun bx q => ⟨min bx.lox q.1, min bx.loy q.2, max bx.hix q.1, max bx.hiy q.2⟩) bx) q := by
  induction rest generalizing bx with
  | nil => cases h
  | cons b bs ih =>
    simp only [List.foldl_cons]
    rcases List.mem_cons.1 h with rfl | hmem
    · exact bboxFold_mono bs _
        ⟨min_le_right _ _, le_max_right _ _, min_le_right _ _, le_max_right _ _⟩
    · exact ih hmem _

theorem mem_bboxOf {l : Polyline} {q : Pt} (h : q ∈ l) : InBox (bboxOf l) q := by
  cases l with
  | nil => cases h
  | cons a rest =>
    simp only [bboxOf]
    rcases List.mem_cons.1 h with rfl | hmem
    · exact bboxFold_mono rest _ ⟨le_refl _, le_refl _, le_refl _, le_refl _⟩
    · exact bboxFold_self rest hmem _

theorem interval_mem {a b x t : ℚ} (ht0 : 0 ≤ t) (ht1 : t ≤ 1) (hx : x = a + t * (b - a)) :
    min a b ≤ x ∧ x ≤ max a b := by
  rcases le_total a b with hab | hab
  · rw [min_eq_left hab, max_eq_right hab]
    constructor <;> nlinarith
  · rw [min_eq_right hab, max_eq_left hab]
    constructor <;> nlinarith

theorem inBox_segClosest {bx : Box} {a b : Pt} (p : Pt)
    (ha : InBox bx a) (hb : InBox bx b) : InBox bx (segClosest a b p) := by
  obtain ⟨a1, a2, a3, a4⟩ := ha
  obtain ⟨c1, c2, c3, c4⟩ := hb
  simp only [segClosest]
  by_cases hden : ptDot (ptSub b a) (ptSub b a) = 0
  · simp only [hden, if_pos]
    exact ⟨a1, a2, a3, a4⟩
  · simp only [hden, if_neg, not_false_iff]
    set t := min 1 (max 0 (ptDot (ptSub p a) (ptSub b a) / ptDot (ptSub b a) (ptSub b a))) with htdef
    have ht0 : 0 ≤ t := le_min (by norm_num) (le_max_left _ _)
    have ht1 : t ≤ 1 := min_le_left _ _
    have hx := interval_mem (a := a.1) (b := b.1) ht0 ht1 (x := a.1 + t * (ptSub b a).1) (by rfl)
    have hy := interval_mem (a := a.2) (b := b.2) ht0 ht1 (x := a.2 + t * (ptSub b a).2) (by rfl)
    refine ⟨le_trans (le_min a1 c1) hx.1, le_trans hx.2 (max_le a2 c2),
      le_trans (le_min a3 c3) hy.1, le_trans hy.2 (max_le a4 c4)⟩

theorem foldl_closest_inBox (bx : Box) (p : Pt) (zs : List (Pt × Pt)) (a : Pt)
    (hinit : InBox bx a)
    (hall : ∀ ab ∈ zs, InBox bx ab.1 ∧ InBox bx ab.2) :
    InBox bx (zs.foldl
      (fun best ab =>
        if sqDist (segClosest ab.1 ab.2 p) p < sqDist best p then segClosest ab.1 ab.2 p
        else best) a) := by
  induction zs generalizing a with
  | nil => exact hinit
  | cons z zt ih =>
    simp only [List.foldl_cons]
    by_cases hlt : sqDist (segClosest z.1 z.2 p) p < sqDist a p
    · rw [if_pos hlt]
      exact ih _ (inBox_segClosest p (hall z (List.mem_cons_self _ _)).1
          (hall z (List.mem_cons_self _ _)).2)
        (fun ab hab => hall ab (List.mem_cons_of_mem _ hab))
    · rw [if_neg hlt]
      exact ih _ hinit (fun ab hab => hall ab (List.mem_cons_of_mem _ hab))

theorem closestPoint_in_bbox {l : Polyline} (p : Pt) (h : l ≠ []) :
    InBox (bboxOf l) (closestPointOnPolyline l p) := by
  cases l with
  | nil => exact absurd rfl h
  | cons a rest =>
    simp only [closestPointOnPolyline]
    refine foldl_closest_inBox _ p _ _ (mem_bboxOf (List.mem_cons_self _ _)) ?_
    intro ab hab
    obtain ⟨h1, h2⟩ := List.of_mem_zip hab
    exact ⟨mem_bboxOf h1, mem_bboxOf (List.mem_cons_of_mem _ h2)⟩

/-! ### The successful-match shape of `RoadMatcher.match` -/

theorem segs_ne_nil_of_survivors {M : Matcher} {lon lat : ℚ} {heading : Option ℚ}
    (h : survivors M lon lat heading ≠ []) : M.segs ≠ [] := by
  obtain ⟨c, hc⟩ := List.exists_mem_of_ne_nil _ h
  obtain ⟨⟨sid, geom, hmem, -, -⟩, -⟩ := mem_survivors.1 hc
  exact List.ne_nil_of_mem hmem

theorem matchPoint_of_selectBest {M : Matcher} {lon lat : ℚ} {heading : Option ℚ}
    {best : Candidate} (hsegs : M.segs ≠ [])
    (hsel : selectBest (survivors M lon lat heading) = some best) :
    RoadMatcher.matchPoint M lon lat heading =
      { matched := true
        segment_id := some best.segment_id
        display_segment_key := some best.segment_id
        directed_id :=
          some (best.segment_id ++ ":" ++ chooseDirection M.bearing best.geom (lon, lat) heading)
        match_distance_m := some (round2 (Real.sqrt (best.dsq : ℝ)))
        snapped_lon := some (qround6 best.snapped.1)
        snapped_lat := some (qround6 best.snapped.2) } := by
  simp [RoadMatcher.matchPoint, hsegs, hsel]

theorem match_succeeds {M : Matcher} {lon lat : ℚ} {heading : Option ℚ}
    (hne : survivors M lon lat heading ≠ []) :
    (RoadMatcher.matchPoint M lon lat heading).matched = true ∧
    ∃ best ∈ survivors M lon lat heading,
      (RoadMatcher.matchPoint M lon lat heading).segment_id = some best.segment_id ∧
      ∀ c ∈ survivors M lon lat heading, KeyLe best c := by
  obtain ⟨best, hsel⟩ := selectBest_ne_none hne
  have hrw := matchPoint_of_selectBest (segs_ne_nil_of_survivors hne) hsel
  refine ⟨by rw [hrw], best, selectBest_mem hsel, by rw [hrw], selectBest_min hsel⟩

/-- The claim-level comparator, stated on true (non-squared) distances:
`x` is preferred to `y` iff `x` is aligned and `y` is not, or they are in the
same alignment class and `x` is at most as distant. -/
def Preferred (x y : Candidate) : Prop :=
  (x.aligned = true ∧ y.aligned = false) ∨
  (x.aligned = y.aligned ∧ Real.sqrt (x.dsq : ℝ) ≤ Real.sqrt (y.dsq : ℝ))

theorem preferred_of_keyLe {x y : Candidate} (h : KeyLe x y) : Preferred x y := by
  rcases h with h | ⟨h1, h2⟩
  · exact Or.inl h
  · exact Or.inr ⟨h1, Real.sqrt_le_sqrt (by exact_mod_cast h2)⟩

theorem abs_le_of_sq_le {x y : ℚ} (h : x ^ 2 ≤ y ^ 2) (hy : 0 ≤ y) : |x| ≤ y :=
  abs_le.2 ⟨by nlinarith, by nlinarith⟩

theorem bufferDeg_eq (r : ℚ) : bufferDeg r = r / 74000 := by
  unfold bufferDeg
  ring

/-- Claim C2: for every call to `match` whose set of candidates surviving the
radius filter is non-empty, the call matches and the returned segment is a
minimum of the surviving set under the ordering key (alignment descending,
distance ascending): an aligned candidate is always preferred over any closer
misaligned candidate, and ties within the same alignment class are broken by
smaller (or equal) distance. -/
theorem match_returns_comparator_minimum (M : Matcher) (lon lat : ℚ)
    (heading : Option ℚ) (hne : survivors M lon lat heading ≠ []) :
    (RoadMatcher.matchPoint M lon lat heading).matched = true ∧
    ∃ best ∈ survivors M lon lat heading,
      (RoadMatcher.matchPoint M lon lat heading).segment_id = some best.segment_id ∧
      ∀ c ∈ survivors M lon lat heading, Preferred best c := by
  obtain ⟨hm, best, hmem, hid, hmin⟩ := match_succeeds hne
  exact ⟨hm, best, hmem, hid, fun c hc => preferred_of_keyLe (hmin c hc)⟩

/-- Claim C1: if the query point is within `radiusMeters` (metric-frame
distance to the snapped point, per the spec's 4.1/4.4 distance computation)
of at least one indexed segment, then `match` returns `matched = true`, and
the returned segment is a minimum of the surviving candidates under the 4.4
comparator (alignment descending, distance ascending).  The hypothesis
`hexp` is the property of the Web-Mercator projection that makes the
1.5-margin equatorial-scale buffer sound: it expands every displacement by a
linear factor of at least `74000 = 111000 / 1.5` (the true factor is ≥
111319 m/degree). -/
theorem match_no_false_negative_within_radius (M : Matcher) (lon lat : ℚ)
    (heading : Option ℚ)
    (hexp : ∀ a b : Pt, (74000 : ℚ) ^ 2 * sqDist a b ≤ sqDist (M.toMetric a) (M.toMetric b))
    (sid : String) (geom : Polyline) (hmem : (sid, geom) ∈ M.segs) (hgeom : geom ≠ [])
    (hnear : Real.sqrt
        ((sqDist (M.toMetric (lon, lat))
          (M.toMetric (closestPointOnPolyline geom (lon, lat))) : ℚ) : ℝ) ≤ (M.radius : ℝ)) :
    (RoadMatcher.matchPoint M lon lat heading).matched = true ∧
    ∃ best ∈ survivors M lon lat heading,
      (RoadMatcher.matchPoint M lon lat heading).segment_id = some best.segment_id ∧
      ∀ c ∈ survivors M lon lat heading, Preferred best c := by
  set p : Pt := (lon, lat) with hp
  set snapped := closestPointOnPolyline geom p with hsnap
  obtain ⟨hr0R, hdR⟩ := Real.sqrt_le_iff.1 hnear
  have hr0 : 0 ≤ M.radius := by exact_mod_cast hr0R
  have hd : sqDist (M.toMetric p) (M.toMetric snapped) ≤ M.radius ^ 2 := by exact_mod_cast hdR
  -- the snapped point is inside the query rectangle
  have hdeg : sqDist p snapped ≤ (M.radius / 74000) ^ 2 := by
    have := hexp p snapped
    nlinarith
  have hbuf0 : 0 ≤ M.radius / 74000 := by positivity
  have hx : |p.1 - snapped.1| ≤ M.radius / 74000 := by
    refine abs_le_of_sq_le ?_ hbuf0
    have : (p.1 - snapped.1) ^ 2 ≤ sqDist p snapped := by
      simp only [sqDist]
      nlinarith [sq_nonneg (p.2 - snapped.2)]
    linarith
  have hy : |p.2 - snapped.2| ≤ M.radius / 74000 := by
    refine abs_le_of_sq_le ?_ hbuf0
    have : (p.2 - snapped.2) ^ 2 ≤ sqDist p snapped := by
      simp only [sqDist]
      nlinarith [sq_nonneg (p.1 - snapped.1)]
    linarith
  have hqb : InBox (queryBox p (bufferDeg M.radius)) snapped := by
    rw [bufferDeg_eq]
    obtain ⟨hx1, hx2⟩ := abs_le.1 hx
    obtain ⟨hy1, hy2⟩ := abs_le.1 hy
    refine ⟨?_, ?_, ?_, ?_⟩ <;> simp only [queryBox] <;> linarith
  have hbx : boxIntersects (bboxOf geom) (queryBox p (bufferDeg M.radius)) = true :=
    boxIntersects_of_common (closestPoint_in_bbox p hgeom) hqb
  -- hence the segment is a surviving candidate
  have hcand : candidateOf M.toMetric M.bearing heading p sid geom ∈
      survivors M lon lat heading := by
    refine mem_survivors.2 ⟨⟨sid, geom, hmem, hbx, rfl⟩, hr0, ?_⟩
    simpa [candidateOf] using hd
  have hne : survivors M lon lat heading ≠ [] := List.ne_nil_of_mem hcand
  obtain ⟨hm, best, hbmem, hid, hmin⟩ := match_succeeds hne
  exact ⟨hm, best, hbmem, hid, fun c hc => preferred_of_keyLe (hmin c hc)⟩

/-! ### Concrete instances used by the witnesses -/

/-- The spec's concrete scenario segment: a straight segment from (0,0) to
(0,0.001), about 111 m north-south. -/
def seg0 : Polyline := [(0, 0), (0, 1/1000)]

/-- A concrete matcher over `seg0`: the metric projection is the linear
equatorial-scale map (111320 metres per degree on both axes, the exact
behaviour of EPSG:3857 on the equator up to the 4th decimal), the bearing
oracle is the due-north bearing 0, and the radius is the default 50 m. -/
def M0 : Matcher where
  toMetric := fun q => (111320 * q.1, 111320 * q.2)
  bearing := fun _ _ => 0
  radius := 50
  segs := [("s0", seg0)]

theorem M0_expansion (a b : Pt) :
    (74000 : ℚ) ^ 2 * sqDist a b ≤ sqDist (M0.toMetric a) (M0.toMetric b) := by
  simp only [M0, sqDist]
  nlinarith [sq_nonneg (a.1 - b.1), sq_nonneg (a.2 - b.2)]

theorem M0_snapped :
    closestPointOnPolyline seg0 (2/10000, 3/10000) = ((0 : ℚ), (3/10000 : ℚ)) := by
  norm_num [closestPointOnPolyline, seg0, segClosest, ptSub, ptDot, sqDist, List.foldl]

theorem M0_dsq :
    sqDist (M0.toMetric (2/10000, 3/10000))
      (M0.toMetric (closestPointOnPolyline seg0 (2/10000, 3/10000))) = 7745089/15625 := by
  rw [M0_snapped]
  norm_num [M0, sqDist]

theorem M0_near :
    Real.sqrt ((sqDist (M0.toMetric (2/10000, 3/10000))
      (M0.toMetric (closestPointOnPolyline seg0 (2/10000, 3/10000))) : ℚ) : ℝ) ≤
      (M0.radius : ℝ) := by
  rw [M0_dsq]
  refine Real.sqrt_le_iff.2 ⟨by norm_num [M0], ?_⟩
  show ((7745089/15625 : ℚ) : ℝ) ≤ (M0.radius : ℝ) ^ 2
  norm_num [M0]

theorem survivorsM0_ne : survivors M0 (2/10000) (3/10000) none ≠ [] := by
  norm_num [survivors, candidateList, candidateOf, closestPointOnPolyline, seg0,
    M0, bufferDeg, boxIntersects, bboxOf, queryBox, List.foldl, segClosest,
    ptSub, ptDot, sqDist, survivesRadius, List.filter]

/-- Witness for claim C2 at the concrete matcher `M0`. -/
theorem match_returns_comparator_minimum_witness :
    survivors M0 (2/10000) (3/10000) none ≠ [] ∧
    ((RoadMatcher.matchPoint M0 (2/10000) (3/10000) none).matched = true ∧
     ∃ best ∈ survivors M0 (2/10000) (3/10000) none,
       (RoadMatcher.matchPoint M0 (2/10000) (3/10000) none).segment_id =
         some best.segment_id ∧
       ∀ c ∈ survivors M0 (2/10000) (3/10000) none, Preferred best c) :=
  ⟨survivorsM0_ne, match_returns_comparator_minimum M0 (2/10000) (3/10000) none survivorsM0_ne⟩

/-- Witness for claim C1 at the concrete matcher `M0`. -/
theorem match_no_false_negative_within_radius_witness :
    (∀ a b : Pt, (74000 : ℚ) ^ 2 * sqDist a b ≤ sqDist (M0.toMetric a) (M0.toMetric b)) ∧
    ("s0", seg0) ∈ M0.segs ∧
    seg0 ≠ [] ∧
    Real.sqrt ((sqDist (M0.toMetric (2/10000, 3/10000))
      (M0.toMetric (closestPointOnPolyline seg0 (2/10000, 3/10000))) : ℚ) : ℝ) ≤
      (M0.radius : ℝ) ∧
    ((RoadMatcher.matchPoint M0 (2/10000) (3/10000) none).matched = true ∧
     ∃ best ∈ survivors M0 (2/10000) (3/10000) none,
       (RoadMatcher.matchPoint M0 (2/10000) (3/10000) none).segment_id =
         some best.segment_id ∧
       ∀ c ∈ survivors M0 (2/10000) (3/10000) none, Preferred best c) :=
  ⟨M0_expansion, List.mem_cons_self _ _, by simp [seg0], M0_near,
    match_no_false_negative_within_radius M0 (2/10000) (3/10000) none M0_expansion
      "s0" seg0 (List.mem_cons_self _ _) (by simp [seg0]) M0_near⟩

/-! ### Claim C5: the alignment flag -/

theorem qmod_eq_fract_mul (a : ℚ) {b : ℚ} (hb : b ≠ 0) :
    qmod a b = b * Int.fract (a / b) := by
  unfold qmod
  rw [Int.fract]
  field_simp

theorem qmod_nonneg (a : ℚ) {b : ℚ} (hb : 0 < b) : 0 ≤ qmod a b := by
  rw [qmod_eq_fract_mul a hb.ne.symm]
  exact mul_nonneg hb.le (Int.fract_nonneg _)

theorem qmod_lt (a : ℚ) {b : ℚ} (hb : 0 < b) : qmod a b < b := by
  rw [qmod_eq_fract_mul a hb.ne.symm]
  calc b * Int.fract (a / b) < b * 1 := by
        exact mul_lt_mul_of_pos_left (Int.fract_lt_one _) hb
    _ = b := mul_one b

theorem alignedCheck_iff_min (h lb : ℚ) :
    alignedCheck h lb = true ↔
      min (qmod |h - lb| 180) (180 - qmod |h - lb| 180) ≤ 60 := by
  have h0 : 0 ≤ qmod |h - lb| 180 := qmod_nonneg _ (by norm_num)
  have h1 : qmod |h - lb| 180 < 180 := qmod_lt _ (by norm_num)
  simp only [alignedCheck, decide_eq_true_eq]
  rcases le_or_lt (qmod |h - lb| 180) 90 with hle | hlt
  · rw [if_neg (by linarith), min_eq_left (by linarith)]
  · rw [if_pos (by linarith), min_eq_right (by linarith)]

/-- Claim C5: for every candidate surviving the radius filter of `match`,
the alignment flag is true iff the heading is absent, or the angular
difference between the heading and the polyline bearing at the snap
position, reduced modulo 180 and then reflected into `[0, 90]` (i.e.
`min d (180 - d)` for `d` the mod-180 residue), is at most 60 degrees. -/
theorem alignment_flag_spec (M : Matcher) (lon lat : ℚ) (heading : Option ℚ)
    (c : Candidate) (hc : c ∈ survivors M lon lat heading) :
    c.aligned = true ↔
      (heading = none ∨
        ∃ h, heading = some h ∧
          min (qmod |h - M.bearing c.geom c.snapped| 180)
            (180 - qmod |h - M.bearing c.geom c.snapped| 180) ≤ 60) := by
  obtain ⟨⟨sid, geom, hmem, hbx, rfl⟩, -⟩ := mem_survivors.1 hc
  cases heading with
  | none => simp [candidateOf]
  | some h =>
    simp only [candidateOf, Option.some.injEq, reduceCtorEq, false_or]
    constructor
    · intro ha
      exact ⟨h, rfl, (alignedCheck_iff_min h _).1 ha⟩
    · rintro ⟨h2, heq, hmin⟩
      obtain rfl := heq
      exact (alignedCheck_iff_min h _).2 hmin

/-- The surviving candidate of the matcher `M0` for the query
`(0.0002, 0.0003)` with heading 10. -/
def cand0 : Candidate := ⟨"s0", seg0, 7745089/15625, (0, 3/10000), true⟩

theorem survivorsM0h_eq :
    survivors M0 (2/10000) (3/10000) (some 10) = [cand0] := by
  norm_num [survivors, candidateList, candidateOf, closestPointOnPolyline, seg0,
    M0, cand0, bufferDeg, boxIntersects, bboxOf, queryBox, List.foldl, segClosest,
    ptSub, ptDot, sqDist, survivesRadius, List.filter, alignedCheck, qmod]

theorem cand0_mem : cand0 ∈ survivors M0 (2/10000) (3/10000) (some 10) := by
  rw [survivorsM0h_eq]
  exact List.mem_cons_self _ _

/-- Witness for claim C5 at the concrete matcher `M0` with heading 10. -/
theorem alignment_flag_spec_witness :
    cand0 ∈ survivors M0 (2/10000) (3/10000) (some 10) ∧
    (cand0.aligned = true ↔
      ((some (10 : ℚ) : Option ℚ) = none ∨
        ∃ h, (some (10 : ℚ) : Option ℚ) = some h ∧
          min (qmod |h - M0.bearing cand0.geom cand0.snapped| 180)
            (180 - qmod |h - M0.bearing cand0.geom cand0.snapped| 180) ≤ 60)) :=
  ⟨cand0_mem, alignment_flag_spec M0 (2/10000) (3/10000) (some 10) cand0 cand0_mem⟩

/-! ### Claim C6: the direction token and `directed_id` -/

theorem qmod_self_range {d : ℚ} (h0 : 0 ≤ d) (h1 : d < 360) : qmod d 360 = d := by
  unfold qmod
  have hfl : ⌊d / 360⌋ = 0 := by
    rw [Int.floor_eq_zero_iff, Set.mem_Ico]
    exact ⟨by positivity, by rw [div_lt_one (by norm_num)]; exact h1⟩
  rw [hfl]
  simp

theorem qmod_neg_range {e : ℚ} (h0 : -360 ≤ e) (h1 : e < 0) : qmod e 360 = e + 360 := by
  unfold qmod
  have hfl : ⌊e / 360⌋ = -1 := by
    rw [Int.floor_eq_iff]
    constructor
    · show ((-1 : ℤ) : ℚ) ≤ e / 360
      rw [show ((-1 : ℤ) : ℚ) = -1 by norm_num, le_div_iff (by norm_num : (0 : ℚ) < 360)]
      linarith
    · show e / 360 < (-1 : ℤ) + 1
      rw [div_lt_iff (by norm_num : (0 : ℚ) < 360)]
      push_cast
      linarith
  rw [hfl]
  push_cast
  ring

theorem ite_fwd_iff (c : Prop) [Decidable c] :
    ((if c then "fwd" else "rev") = "fwd") ↔ c := by
  by_cases hc : c
  · rw [if_pos hc]
    simp [hc]
  · rw [if_neg hc]
    constructor
    · intro hcontra
      exact absurd hcontra (by decide)
    · intro hcontra
      exact absurd hcontra hc

theorem angdiff_eq_circ {h lb : ℚ} (hh0 : 0 ≤ h) (hh1 : h < 360)
    (hl0 : 0 ≤ lb) (hl1 : lb < 360) :
    (if |h - lb| > 180 then 360 - |h - lb| else |h - lb|) =
      min (qmod (h - lb) 360) (360 - qmod (h - lb) 360) := by
  rcases le_or_lt lb h with hle | hlt
  · rw [abs_of_nonneg (by linarith), qmod_self_range (by linarith) (by linarith)]
    rcases le_or_lt (h - lb) 180 with hd | hd
    · rw [if_neg (by linarith), min_eq_left (by linarith)]
    · rw [if_pos (by linarith), min_eq_right (by linarith)]
  · rw [abs_of_neg (by linarith), qmod_neg_range (by linarith) (by linarith)]
    rcases le_or_lt (lb - h) 180 with hd | hd
    · rw [if_neg (by linarith), min_eq_right (by linarith)]
      ring
    · rw [if_pos (by linarith), min_eq_left (by linarith)]
      ring

theorem matched_elim {M : Matcher} {lon lat : ℚ} {heading : Option ℚ}
    (hm : (RoadMatcher.matchPoint M lon lat heading).matched = true) :
    M.segs ≠ [] ∧ ∃ best, selectBest (survivors M lon lat heading) = some best := by
  by_cases hs : M.segs = []
  · simp [RoadMatcher.matchPoint, hs] at hm
  · refine ⟨hs, ?_⟩
    cases hsel : selectBest (survivors M lon lat heading) with
    | none => simp [RoadMatcher.matchPoint, hs, hsel] at hm
    | some b => exact ⟨b, rfl⟩

/-- Claim C6: for every match that returns `matched = true` there is a best
surviving candidate such that `directed_id` is the segment id, a colon, and
the direction token of `_choose_direction`; the token is `fwd` whenever the
heading is omitted, for any geometry; and for a heading (in its `[0,360)`
domain, with the bearing in its `[0,360)` range) the token is `fwd` iff the
angular difference between heading and the polyline bearing at the snap
position, reduced into `[0,180]` (i.e. `min m (360 - m)` for `m` the mod-360
residue), is at most 90 degrees. -/
theorem direction_token_spec (M : Matcher) (lon lat : ℚ) (heading : Option ℚ)
    (hm : (RoadMatcher.matchPoint M lon lat heading).matched = true) :
    ∃ best ∈ survivors M lon lat heading,
      (RoadMatcher.matchPoint M lon lat heading).segment_id = some best.segment_id ∧
      (RoadMatcher.matchPoint M lon lat heading).directed_id =
        some (best.segment_id ++ ":" ++
          chooseDirection M.bearing best.geom (lon, lat) heading) ∧
      (heading = none → chooseDirection M.bearing best.geom (lon, lat) heading = "fwd") ∧
      (∀ h, heading = some h → 0 ≤ h → h < 360 →
        0 ≤ M.bearing best.geom (lon, lat) → M.bearing best.geom (lon, lat) < 360 →
        (chooseDirection M.bearing best.geom (lon, lat) heading = "fwd" ↔
          min (qmod (h - M.bearing best.geom (lon, lat)) 360)
            (360 - qmod (h - M.bearing best.geom (lon, lat)) 360) ≤ 90)) := by
  obtain ⟨hs, best, hsel⟩ := matched_elim hm
  have hrw := matchPoint_of_selectBest hs hsel
  refine ⟨best, selectBest_mem hsel, by rw [hrw], by rw [hrw], ?_, ?_⟩
  · rintro rfl
    rfl
  · rintro h rfl hh0 hh1 hb0 hb1
    simp only [chooseDirection]
    rw [angdiff_eq_circ hh0 hh1 hb0 hb1]
    exact ite_fwd_iff _

theorem matchM0h_matched :
    (RoadMatcher.matchPoint M0 (2/10000) (3/10000) (some 10)).matched = true := by
  have hsel : selectBest (survivors M0 (2/10000) (3/10000) (some 10)) = some cand0 := by
    rw [survivorsM0h_eq]
    rfl
  rw [matchPoint_of_selectBest (by simp [M0]) hsel]

/-- Witness for claim C6 at the concrete matcher `M0` with heading 10. -/
theorem direction_token_spec_witness :
    (RoadMatcher.matchPoint M0 (2/10000) (3/10000) (some 10)).matched = true ∧
    (∃ best ∈ survivors M0 (2/10000) (3/10000) (some 10),
      (RoadMatcher.matchPoint M0 (2/10000) (3/10000) (some 10)).segment_id =
        some best.segment_id ∧
      (RoadMatcher.matchPoint M0 (2/10000) (3/10000) (some 10)).directed_id =
        some (best.segment_id ++ ":" ++
          chooseDirection M0.bearing best.geom (2/10000, 3/10000) (some 10)) ∧
      ((some (10 : ℚ) : Option ℚ) = none →
        chooseDirection M0.bearing best.geom (2/10000, 3/10000) (some 10) = "fwd") ∧
      (∀ h, (some (10 : ℚ) : Option ℚ) = some h → 0 ≤ h → h < 360 →
        0 ≤ M0.bearing best.geom (2/10000, 3/10000) →
        M0.bearing best.geom (2/10000, 3/10000) < 360 →
        (chooseDirection M0.bearing best.geom (2/10000, 3/10000) (some 10) = "fwd" ↔
          min (qmod (h - M0.bearing best.geom (2/10000, 3/10000)) 360)
            (360 - qmod (h - M0.bearing best.geom (2/10000, 3/10000)) 360) ≤ 90))) :=
  ⟨matchM0h_matched,
    direction_token_spec M0 (2/10000) (3/10000) (some 10) matchM0h_matched⟩

/-! ### Claim C3: bounds on the reported, rounded `match_distance_m` -/

theorem roundHalfEven_tie {y : ℝ} (h : Int.fract y = 1/2) :
    roundHalfEven y = ⌊y⌋ ∨ roundHalfEven y = ⌊y⌋ + 1 := by
  have hy : y = (⌊y⌋ : ℝ) + 1/2 := by
    have hfl := Int.floor_add_fract y
    rw [h] at hfl
    linarith
  unfold roundHalfEven
  rw [if_pos h]
  rcases Int.even_or_odd ⌊y⌋ with ⟨k, hk⟩ | ⟨k, hk⟩
  · left
    rw [round_eq]
    have harg : y / 2 + 1 / 2 = (k : ℝ) + 3/4 := by
      rw [hy, hk]
      push_cast
      ring
    rw [harg, Int.floor_int_add, hk]
    norm_num
    ring
  · right
    rw [round_eq]
    have harg : y / 2 + 1 / 2 = (k : ℝ) + 5/4 := by
      rw [hy, hk]
      push_cast
      ring
    rw [harg, Int.floor_int_add, hk]
    norm_num
    ring

theorem roundHalfEven_bounds (y : ℝ) :
    y - 1/2 ≤ (roundHalfEven y : ℝ) ∧ (roundHalfEven y : ℝ) ≤ y + 1/2 := by
  by_cases h : Int.fract y = 1/2
  · have hy : y = (⌊y⌋ : ℝ) + 1/2 := by
      have hfl := Int.floor_add_fract y
      rw [h] at hfl
      linarith
    rcases roundHalfEven_tie h with he | he <;> rw [he] <;> push_cast <;>
      constructor <;> linarith
  · unfold roundHalfEven
    rw [if_neg h]
    have := abs_sub_round y
    rw [abs_le] at this
    constructor <;> linarith [this.1, this.2]

theorem roundHalfEven_le_int {y : ℝ} {k : ℤ} (h : y ≤ (k : ℝ)) :
    roundHalfEven y ≤ k := by
  by_cases hf : Int.fract y = 1/2
  · have hy : y = (⌊y⌋ : ℝ) + 1/2 := by
      have hfl := Int.floor_add_fract y
      rw [hf] at hfl
      linarith
    have hlt : ⌊y⌋ < k := by
      have : ((⌊y⌋ : ℤ) : ℝ) < (k : ℝ) := by linarith
      exact_mod_cast this
    rcases roundHalfEven_tie hf with he | he <;> rw [he] <;> omega
  · unfold roundHalfEven
    rw [if_neg hf, round_eq]
    have hle : y + 1/2 ≤ (k : ℝ) + 1/2 := by linarith
    calc ⌊y + 1/2⌋ ≤ ⌊(k : ℝ) + 1/2⌋ := Int.floor_le_floor hle
      _ = k + ⌊(1 : ℝ)/2⌋ := Int.floor_int_add k _
      _ = k := by norm_num

theorem round2_nonneg {x : ℝ} (hx : 0 ≤ x) : 0 ≤ round2 x := by
  unfold round2
  have hb := (roundHalfEven_bounds (x * 100)).1
  have h1 : (-1 : ℝ) < (roundHalfEven (x * 100) : ℝ) := by nlinarith
  have h2 : (0 : ℤ) ≤ roundHalfEven (x * 100) := by
    have : (-1 : ℤ) < roundHalfEven (x * 100) := by exact_mod_cast h1
    omega
  have : (0 : ℝ) ≤ (roundHalfEven (x * 100) : ℝ) := by exact_mod_cast h2
  linarith

theorem round2_le (x : ℝ) : round2 x ≤ x + 1/200 := by
  unfold round2
  have hb := (roundHalfEven_bounds (x * 100)).2
  linarith

theorem round2_le_grid {x : ℝ} {k : ℤ} (h : x ≤ (k : ℝ)/100) : round2 x ≤ (k : ℝ)/100 := by
  unfold round2
  have h1 : x * 100 ≤ (k : ℝ) := by linarith
  have h2 := roundHalfEven_le_int h1
  have h3 : ((roundHalfEven (x * 100) : ℤ) : ℝ) ≤ (k : ℝ) := by exact_mod_cast h2
  linarith

/-- Claim C3 (amended): whenever `match` returns `matched = true`, the best
surviving candidate's true (unrounded) distance is at most `radiusMeters`
(so the spec's defensive re-check can never fire), the reported
`match_distance_m` is that distance rounded to 0.01 m, and the reported value
`d` satisfies `0 ≤ d` and `d ≤ radiusMeters + 0.005`; when `radiusMeters` is
itself a multiple of 0.01 m (in particular for the default 50 m) the original
bound `d ≤ radiusMeters` holds.  The claim as literally stated is refuted by
`match_distance_exceeds_radius` below: rounding can push the reported value
above a radius that is not on the 0.01 m grid. -/
theorem match_distance_bounds (M : Matcher) (lon lat : ℚ) (heading : Option ℚ)
    (hm : (RoadMatcher.matchPoint M lon lat heading).matched = true) :
    ∃ best ∈ survivors M lon lat heading,
      Real.sqrt (best.dsq : ℝ) ≤ (M.radius : ℝ) ∧
      (RoadMatcher.matchPoint M lon lat heading).match_distance_m =
        some (round2 (Real.sqrt (best.dsq : ℝ))) ∧
      ∀ d, (RoadMatcher.matchPoint M lon lat heading).match_distance_m = some d →
        0 ≤ d ∧ d ≤ (M.radius : ℝ) + 1/200 ∧
        ∀ k : ℤ, M.radius = (k : ℚ)/100 → d ≤ (M.radius : ℝ) := by
  obtain ⟨hs, best, hsel⟩ := matched_elim hm
  have hrw := matchPoint_of_selectBest hs hsel
  have hmem := selectBest_mem hsel
  obtain ⟨-, hr, hd⟩ := mem_survivors.1 hmem
  have hsq : Real.sqrt (best.dsq : ℝ) ≤ (M.radius : ℝ) := by
    refine Real.sqrt_le_iff.2 ⟨by exact_mod_cast hr, ?_⟩
    exact_mod_cast hd
  refine ⟨best, hmem, hsq, by rw [hrw], ?_⟩
  intro d hdm
  rw [hrw] at hdm
  simp only [Option.some.injEq] at hdm
  subst hdm
  refine ⟨round2_nonneg (Real.sqrt_nonneg _), le_trans (round2_le _) (by linarith), ?_⟩
  intro k hk
  have hkR : (M.radius : ℝ) = (k : ℝ)/100 := by exact_mod_cast hk
  rw [hkR]
  exact round2_le_grid (by rw [← hkR]; exact hsq)

/-- A matcher whose radius 0.006 m is not a multiple of the 0.01 m reporting
grid, with one indexed segment (used to refute the literal claim C3). -/
def M1 : Matcher where
  toMetric := fun q => (111320 * q.1, 111320 * q.2)
  bearing := fun _ _ => 0
  radius := 3/500
  segs := [("s0", seg0)]

/-- The surviving candidate of `M1` for a query point at metric distance
exactly 0.006 m from the segment. -/
def cand1 : Candidate := ⟨"s0", seg0, 9/250000, (0, 3/10000), true⟩

theorem survivorsM1_eq :
    survivors M1 (3/55660000) (3/10000) none = [cand1] := by
  norm_num [survivors, candidateList, candidateOf, closestPointOnPolyline, seg0,
    M1, cand1, bufferDeg, boxIntersects, bboxOf, queryBox, List.foldl, segClosest,
    ptSub, ptDot, sqDist, survivesRadius, List.filter]

theorem sqrt_cand1 : Real.sqrt ((9/250000 : ℚ) : ℝ) = 3/500 := by
  rw [show ((9/250000 : ℚ) : ℝ) = (3/500 : ℝ) ^ 2 by norm_num]
  exact Real.sqrt_sq (by norm_num)

theorem round2_of_sqrt_cand1 : round2 (Real.sqrt ((9/250000 : ℚ) : ℝ)) = 1/100 := by
  rw [sqrt_cand1]
  unfold round2 roundHalfEven
  have h100 : (3/500 : ℝ) * 100 = 3/5 := by norm_num
  rw [h100]
  have hf : Int.fract (3/5 : ℝ) ≠ 1/2 := by
    norm_num [Int.fract]
  rw [if_neg hf, round_eq]
  norm_num

/-- Counterexample to claim C3 as literally stated: with `radiusMeters =
0.006` and a segment at metric distance exactly 0.006 m from the query
point, `match` returns `matched = true` with reported `distance_m = 0.01 >
radiusMeters` (Python `round(0.006, 2) = 0.01`). -/
theorem match_distance_exceeds_radius :
    (RoadMatcher.matchPoint M1 (3/55660000) (3/10000) none).matched = true ∧
    (RoadMatcher.matchPoint M1 (3/55660000) (3/10000) none).match_distance_m =
      some (1/100) ∧
    ¬ ((1/100 : ℝ) ≤ (M1.radius : ℝ)) := by
  have hsel : selectBest (survivors M1 (3/55660000) (3/10000) none) = some cand1 := by
    rw [survivorsM1_eq]
    rfl
  have hrw := matchPoint_of_selectBest (by simp [M1]) hsel
  refine ⟨by rw [hrw], ?_, ?_⟩
  · rw [hrw]
    show some (round2 (Real.sqrt ((9/250000 : ℚ) : ℝ))) = some (1/100)
    rw [round2_of_sqrt_cand1]
  · show ¬ ((1/100 : ℝ) ≤ ((3/500 : ℚ) : ℝ))
    norm_num

theorem survivorsM0n_eq :
    survivors M0 (2/10000) (3/10000) none = [cand0] := by
  norm_num [survivors, candidateList, candidateOf, closestPointOnPolyline, seg0,
    M0, cand0, bufferDeg, boxIntersects, bboxOf, queryBox, List.foldl, segClosest,
    ptSub, ptDot, sqDist, survivesRadius, List.filter]

theorem matchM0n_matched :
    (RoadMatcher.matchPoint M0 (2/10000) (3/10000) none).matched = true := by
  have hsel : selectBest (survivors M0 (2/10000) (3/10000) none) = some cand0 := by
    rw [survivorsM0n_eq]
    rfl
  rw [matchPoint_of_selectBest (by simp [M0]) hsel]

/-- Witness for the amended claim C3 at the concrete matcher `M0`. -/
theorem match_distance_bounds_witness :
    (RoadMatcher.matchPoint M0 (2/10000) (3/10000) none).matched = true ∧
    (∃ best ∈ survivors M0 (2/10000) (3/10000) none,
      Real.sqrt (best.dsq : ℝ) ≤ (M0.radius : ℝ) ∧
      (RoadMatcher.matchPoint M0 (2/10000) (3/10000) none).match_distance_m =
        some (round2 (Real.sqrt (best.dsq : ℝ))) ∧
      ∀ d, (RoadMatcher.matchPoint M0 (2/10000) (3/10000) none).match_distance_m =
          some d →
        0 ≤ d ∧ d ≤ (M0.radius : ℝ) + 1/200 ∧
        ∀ k : ℤ, M0.radius = (k : ℚ)/100 → d ≤ (M0.radius : ℝ)) :=
  ⟨matchM0n_matched, match_distance_bounds M0 (2/10000) (3/10000) none matchM0n_matched⟩

/-! ### Claim C8: the catalog load stage (`RoadMatcher._load_roads`) -/

/-- The decoded geometry of one parquet road record: `wkb.loads` either
raises (`none`), yields a `LineString`, or yields some other geometry type. -/
inductive Shape where
  | lineString (pts : Polyline)
  | otherGeom
deriving DecidableEq

/-- One raw road record as read from the parquet table: its (stringified)
`segment_id`, its `class` column, and its decoded `geometry_wkb`. -/
structure RawRecord where
  segment_id : String
  road_class : String
  shape : Option Shape
deriving DecidableEq

/-- `EXCLUDED_CLASSES` (src/server/matching.py lines 86-88). -/
def excludedClasses : List String :=
  ["footway", "steps", "cycleway", "path", "pedestrian", "track", "service", "bridleway"]

/-- `RoadMatcher._load_roads` (src/server/matching.py lines 81-109): skip a
record whose class is excluded, whose WKB fails to decode, or whose geometry
is not a `LineString`; otherwise append `(id, geometry)` to the parallel
`valid_ids`/`valid_geoms` lists.  No deduplication is performed. -/
def loadRoads : List RawRecord → List (String × Polyline)
  | [] => []
  | r :: rest =>
    (if r.road_class ∈ excludedClasses then []
     else
       match r.shape with
       | some (Shape.lineString pts) => [(r.segment_id, pts)]
       | _ => []) ++ loadRoads rest

theorem loadRoads_ids_sublist (rs : List RawRecord) :
    ((loadRoads rs).map Prod.fst).Sublist (rs.map RawRecord.segment_id) := by
  induction rs with
  | nil => simp [loadRoads]
  | cons r rest ih =>
    simp only [loadRoads, List.map_cons, List.map_append]
    by_cases hcl : r.road_class ∈ excludedClasses
    · rw [if_pos hcl]
      exact List.Sublist.cons _ ih
    · rw [if_neg hcl]
      cases hsh : r.shape with
      | none => exact List.Sublist.cons _ ih
      | some s =>
        cases s with
        | lineString pts =>
          simpa using List.Sublist.cons₂ r.segment_id ih
        | otherGeom => exact List.Sublist.cons _ ih

/-- Claim C8 (amended): the load stage filters but does not deduplicate; the
indexed segment ids are pairwise distinct provided the input record ids are
pairwise distinct (the indexed id list is a sublist of the input id list).
The claim as stated over every input sequence is refuted by
`loadRoads_duplicate_ids` below. -/
theorem loadRoads_nodup_of_input_nodup (rs : List RawRecord)
    (h : (rs.map RawRecord.segment_id).Nodup) :
    ((loadRoads rs).map Prod.fst).Nodup :=
  (loadRoads_ids_sublist rs).nodup h

/-- Counterexample to claim C8 as stated: two eligible input records sharing
the id `"a"` produce two indexed segments with the same id — the load stage
performs no deduplication. -/
theorem loadRoads_duplicate_ids :
    ¬ ((loadRoads
        [⟨"a", "residential", some (Shape.lineString [(0, 0), (1, 1)])⟩,
         ⟨"a", "residential", some (Shape.lineString [(0, 0), (1, 1)])⟩]).map
        Prod.fst).Nodup := by
  decide

/-- Witness for the amended claim C8: distinct input ids yield distinct
indexed ids. -/
theorem loadRoads_nodup_of_input_nodup_witness :
    (([⟨"a", "residential", some (Shape.lineString [(0, 0), (1, 1)])⟩,
       ⟨"b", "footway", some (Shape.lineString [(0, 0), (1, 1)])⟩,
       ⟨"c", "residential", none⟩] : List RawRecord).map RawRecord.segment_id).Nodup ∧
    ((loadRoads
       [⟨"a", "residential", some (Shape.lineString [(0, 0), (1, 1)])⟩,
        ⟨"b", "footway", some (Shape.lineString [(0, 0), (1, 1)])⟩,
        ⟨"c", "residential", none⟩]).map Prod.fst).Nodup :=
  ⟨by decide,
    loadRoads_nodup_of_input_nodup
      [⟨"a", "residential", some (Shape.lineString [(0, 0), (1, 1)])⟩,
       ⟨"b", "footway", some (Shape.lineString [(0, 0), (1, 1)])⟩,
       ⟨"c", "residential", none⟩] (by decide)⟩

/-! ### Claim C9: control messages of the streaming loop -/

/-- The per-session mutable state read or written by the control branch of
`stream_roadworks` (src/server/app.py lines 290-294): pause flag, pacing
parameters, cursor and announced-segment set. -/
structure ControlState where
  paused : Bool
  batch_size : ℚ
  tick_ms : ℚ
  event_idx : ℕ
  announced : List String
deriving DecidableEq

/-- One received control frame after `websocket.receive_text()`:
`notJson` — `json.loads(data)` raises `JSONDecodeError`; `nonObject` —
the parsed value is not a dict, so `msg.get` raises `AttributeError`;
`obj` — a dict with its optional `action`, `batch_size` and `tick_ms`
entries. -/
inductive ControlMsg where
  | notJson
  | nonObject
  | obj (action : Option String) (batch_size : Option ℚ) (tick_ms : Option ℚ)
deriving DecidableEq

/-- The control branch of `stream_roadworks` (src/server/app.py lines
393-410).  A malformed frame raises (modelled as `Except.error`; in the
source the exception escapes the `while True` receive loop — it is caught
only by the outer generic handler at line 416, which reports an error and
ends control handling).  A parsed object updates the state per its action;
an unrecognized or missing action falls through every `elif` and changes
nothing.  `restart` additionally cancels and restarts the streaming task
(resetting the cursor and the announced set, as modelled). -/
def handleControl (s : ControlState) : ControlMsg → Except String ControlState
  | .notJson => .error "JSONDecodeError"
  | .nonObject => .error "AttributeError"
  | .obj act bs tm =>
    if act = some "pause" then .ok { s with paused := true }
    else if act = some "resume" then .ok { s with paused := false }
    else if act = some "set_speed" then
      .ok { s with batch_size := bs.getD s.batch_size, tick_ms := tm.getD s.tick_ms }
    else if act = some "restart" then .ok { s with event_idx := 0, announced := [] }
    else .ok s

/-- Counterexample to claim C9 as stated: a malformed control message is not
ignored — `json.loads` raises and the receive loop terminates (only the
outer handler reports an error), instead of the loop continuing unaffected. -/
theorem malformed_control_not_ignored :
    handleControl ⟨false, 50, 50, 0, []⟩ ControlMsg.notJson ≠
      Except.ok ⟨false, 50, 50, 0, []⟩ ∧
    handleControl ⟨false, 50, 50, 0, []⟩ ControlMsg.notJson =
      Except.error "JSONDecodeError" :=
  ⟨by simp [handleControl], rfl⟩

/-- Claim C9 (amended): an unrecognized control action is a no-op — cursor,
announced-set and pacing parameters are left unchanged and streaming
proceeds; but a malformed control message (invalid JSON, or JSON that is not
an object) raises out of the control receive loop (`JSONDecodeError` /
`AttributeError`), terminating control handling for the session, rather
than being ignored. -/
theorem control_unrecognized_noop (s : ControlState) (act : Option String)
    (bs tm : Option ℚ)
    (h1 : act ≠ some "pause") (h2 : act ≠ some "resume")
    (h3 : act ≠ some "set_speed") (h4 : act ≠ some "restart") :
    handleControl s (ControlMsg.obj act bs tm) = Except.ok s ∧
    handleControl s ControlMsg.notJson = Except.error "JSONDecodeError" ∧
    handleControl s ControlMsg.nonObject = Except.error "AttributeError" := by
  refine ⟨?_, rfl, rfl⟩
  simp [handleControl, h1, h2, h3, h4]

/-- Witness for the amended claim C9 at a concrete state and a concrete
unrecognized action. -/
theorem control_unrecognized_noop_witness :
    ((some "shuffle" : Option String) ≠ some "pause") ∧
    ((some "shuffle" : Option String) ≠ some "resume") ∧
    ((some "shuffle" : Option String) ≠ some "set_speed") ∧
    ((some "shuffle" : Option String) ≠ some "restart") ∧
    (handleControl ⟨false, 50, 50, 7, ["s0"]⟩
        (ControlMsg.obj (some "shuffle") (some 10) none) =
      Except.ok ⟨false, 50, 50, 7, ["s0"]⟩ ∧
     handleControl ⟨false, 50, 50, 7, ["s0"]⟩ ControlMsg.notJson =
      Except.error "JSONDecodeError" ∧
     handleControl ⟨false, 50, 50, 7, ["s0"]⟩ ControlMsg.nonObject =
      Except.error "AttributeError") :=
  ⟨by decide, by decide, by decide, by decide,
    control_unrecognized_noop ⟨false, 50, 50, 7, ["s0"]⟩ (some "shuffle") (some 10) none
      (by decide) (by decide) (by decide) (by decide)⟩

/-! ### Claim C10: the upload endpoint replaces state only on success -/

/-- One roadworks event as consumed by the streaming loop (the fields the
stream controller reads; further parquet columns are passthrough). -/
structure Ev where
  event_id : String
  lon : ℚ
  lat : ℚ
  heading : Option ℚ
deriving DecidableEq

/-- The module-level event lists of src/server/app.py (lines 23-24). -/
structure AppState where
  roadworks_events : List Ev
  enforcement_events : List Ev
deriving DecidableEq

/-- The HTTP response of `upload_events`: 200 with counts, or an error
status (413 for too-large files, 400 when `load_events` raises). -/
inductive UploadResponse where
  | ok (roadworks_count enforcement_count : ℕ)
  | err (status : ℕ)
deriving DecidableEq

/-- `upload_events` (src/server/app.py lines 161-229), with the file I/O
externalised: `fileTooLarge` is the 80 MB size check of line 189, and
`loadResult` is the outcome of `load_events` (line 207; `Except.error` when
it raises).  The globals are reassigned (lines 214-215) only after
`load_events` has returned; on any error the `try/except` returns an error
response with the state untouched. -/
def upload_events (st : AppState) (fileTooLarge : Bool)
    (loadResult : Except String (List Ev × List Ev)) : AppState × UploadResponse :=
  if fileTooLarge then (st, UploadResponse.err 413)
  else
    match loadResult with
    | Except.error _ => (st, UploadResponse.err 400)
    | Except.ok (rw, enf) => (⟨rw, enf⟩, UploadResponse.ok rw.length enf.length)

/-- Claim C10: if loading the uploaded events file fails, `upload_events`
returns an error response and the previously loaded roadworks and
enforcement event lists are unchanged — the global lists are replaced only
after a successful parse. -/
theorem upload_events_error_preserves_state (st : AppState) (ftl : Bool)
    (lr : Except String (List Ev × List Ev)) (e : String) (he : lr = Except.error e) :
    (upload_events st ftl lr).1 = st ∧
    ∃ code, (upload_events st ftl lr).2 = UploadResponse.err code := by
  subst he
  cases ftl
  · exact ⟨rfl, 400, rfl⟩
  · exact ⟨rfl, 413, rfl⟩

/-- Witness for claim C10 at a concrete prior state and failing load. -/
theorem upload_events_error_preserves_state_witness :
    ((Except.error "bad parquet" : Except String (List Ev × List Ev)) =
      Except.error "bad parquet") ∧
    ((upload_events ⟨[⟨"e1", 1, 2, none⟩], []⟩ false
        (Except.error "bad parquet")).1 = ⟨[⟨"e1", 1, 2, none⟩], []⟩ ∧
     ∃ code, (upload_events ⟨[⟨"e1", 1, 2, none⟩], []⟩ false
        (Except.error "bad parquet")).2 = UploadResponse.err code) :=
  ⟨rfl, upload_events_error_preserves_state ⟨[⟨"e1", 1, 2, none⟩], []⟩ false
    (Except.error "bad parquet") "bad parquet" rfl⟩

/-! ### Claim C4: the streaming loop `stream_events` of `stream_roadworks` -/

/-- The logical payload of one WebSocket message emitted by `stream_events`
(src/server/app.py lines 298-387), restricted to the fields the ordering
and deduplication claims are about. -/
inductive Msg where
  | segment (segment_id : String)
  | event (event_id : String) (matched : Bool) (matched_segment_id : Option String)
  | progress (streamed total segments : ℕ)
  | complete (total_events total_segments : ℕ)
deriving DecidableEq

/-- Processing of one event inside a batch (src/server/app.py lines 319-364):
match it; if it matched, its segment id is not yet announced, and the
segment's GeoJSON exists, emit a `segment` message and add the id to the
announced set; then always emit the `event` message.  Returns the emitted
messages and the updated announced set.  The matcher and the GeoJSON lookup
(`get_segment_geojson`, truthy iff the id is known) are parameters. -/
def processEvent (matchFn : Ev → MatchResult) (segKnown : String → Bool)
    (sent : List String) (e : Ev) : List Msg × List String :=
  let r := matchFn e
  let seg : List Msg × List String :=
    match r.matched, r.segment_id with
    | true, some sid =>
      if sid ∉ sent then
        (if segKnown sid then ([Msg.segment sid], sid :: sent) else ([], sent))
      else ([], sent)
    | _, _ => ([], sent)
  (seg.1 ++ [Msg.event e.event_id r.matched r.segment_id], seg.2)

/-- One batch: the concatenation of the per-event message blocks, threading
the announced set (the `batch_messages` list of src/server/app.py lines
317-364, which is then sent in order). -/
def processBatch (matchFn : Ev → MatchResult) (segKnown : String → Bool) :
    List Ev → List String → List Msg × List String
  | [], sent => ([], sent)
  | e :: es, sent =>
    let pe := processEvent matchFn segKnown sent e
    let pb := processBatch matchFn segKnown es pe.2
    (pe.1 ++ pb.1, pb.2)

/-- Split the event sequence into consecutive batches of `bs` events (the
cursor loop `while event_idx < len: batch_end = min(event_idx + bs, len)`,
src/server/app.py lines 311-316, pre-chunked; fuel-totalised, faithful for
`bs ≥ 1`). -/
def chunksGo (bs : ℕ) : ℕ → List Ev → List (List Ev)
  | _, [] => []
  | 0, l => [l]
  | fuel + 1, l => l.take bs :: chunksGo bs fuel (l.drop bs)

/-- The batches of the streaming loop. -/
def chunks (bs : ℕ) (l : List Ev) : List (List Ev) := chunksGo bs l.length l

/-- The message sequence from the remaining batches: per batch, its message
block, then one `progress` (cursor, total, announced count); after the last
batch, one `complete` (src/server/app.py lines 366-387). -/
def streamBatches (matchFn : Ev → MatchResult) (segKnown : String → Bool)
    (total : ℕ) : List (List Ev) → ℕ → List String → List Msg
  | [], _, sent => [Msg.complete total sent.length]
  | b :: bs, done, sent =>
    let pb := processBatch matchFn segKnown b sent
    pb.1 ++ (Msg.progress (done + b.length) total pb.2.length ::
      streamBatches matchFn segKnown total bs (done + b.length) pb.2)

/-- `stream_events` (src/server/app.py lines 298-387): one streaming session
(no restart), with `paused` elided (pausing emits nothing and consumes no
events) and pacing delays elided.  An empty event sequence immediately
yields a single zero-count `complete` (lines 302-309). -/
def stream_events (matchFn : Ev → MatchResult) (segKnown : String → Bool)
    (batch_size : ℕ) (events : List Ev) : List Msg :=
  if events = [] then [Msg.complete 0 0]
  else streamBatches matchFn segKnown events.length (chunks batch_size events) 0 []

/-- The id announced by a `segment` message. -/
def segIdOf : Msg → Option String
  | Msg.segment sid => some sid
  | _ => none

/-- The payload of an `event` message. -/
def eventView : Msg → Option (String × Bool × Option String)
  | Msg.event a b c => some (a, b, c)
  | _ => none

/-- Is this a `progress` message? -/
def isProgress : Msg → Bool
  | Msg.progress _ _ _ => true
  | _ => false

/-- Claim-side ordering check: every `segment` message is immediately
followed by an `event` message that matched that very segment id. -/
def segBeforeEvent : List Msg → Bool
  | [] => true
  | Msg.segment sid :: rest =>
    (match rest with
     | Msg.event _ m msid :: _ => m && decide (msid = some sid)
     | _ => false) && segBeforeEvent rest
  | _ :: rest => segBeforeEvent rest

/-- Claim-side ordering check: every `event` message is followed, later in
the stream, by a `progress` message (its batch's progress). -/
def eventBeforeProgress : List Msg → Bool
  | [] => true
  | Msg.event _ _ _ :: rest => rest.any isProgress && eventBeforeProgress rest
  | _ :: rest => eventBeforeProgress rest

theorem processEvent_shape (f : Ev → MatchResult) (k : String → Bool)
    (sent : List String) (e : Ev) :
    (processEvent f k sent e).1 =
        [Msg.event e.event_id (f e).matched (f e).segment_id] ∧
      (processEvent f k sent e).2 = sent ∨
    ∃ sid, (f e).matched = true ∧ (f e).segment_id = some sid ∧ sid ∉ sent ∧
      (processEvent f k sent e).1 =
        [Msg.segment sid, Msg.event e.event_id (f e).matched (f e).segment_id] ∧
      (processEvent f k sent e).2 = sid :: sent := by
  cases hm : (f e).matched with
  | false => simp [processEvent, hm]
  | true =>
    cases hs : (f e).segment_id with
    | none => simp [processEvent, hm, hs]
    | some sid =>
      by_cases hmem : sid ∈ sent
      · simp [processEvent, hm, hs, hmem]
      · by_cases hk : k sid = true
        · right
          exact ⟨sid, rfl, rfl, hmem, by simp [processEvent, hm, hs, hmem, hk]⟩
        · simp [processEvent, hm, hs, hmem, hk]

theorem processEvent_eventView (f : Ev → MatchResult) (k : String → Bool)
    (sent : List String) (e : Ev) :
    (processEvent f k sent e).1.filterMap eventView =
      [(e.event_id, (f e).matched, (f e).segment_id)] := by
  rcases processEvent_shape f k sent e with ⟨h1, -⟩ | ⟨sid, -, -, -, h1, -⟩ <;>
    rw [h1] <;> simp [eventView, segIdOf]

theorem processEvent_segIds (f : Ev → MatchResult) (k : String → Bool)
    (sent : List String) (e : Ev) :
    ((processEvent f k sent e).1.filterMap segIdOf = [] ∧
      (processEvent f k sent e).2 = sent) ∨
    (∃ sid, (processEvent f k sent e).1.filterMap segIdOf = [sid] ∧ sid ∉ sent ∧
      (processEvent f k sent e).2 = sid :: sent) := by
  rcases processEvent_shape f k sent e with ⟨h1, h2⟩ | ⟨sid, -, -, hmem, h1, h2⟩
  · left
    rw [h1, h2]
    simp [eventView, segIdOf]
  · right
    exact ⟨sid, by rw [h1]; simp [segIdOf, eventView], hmem, h2⟩

theorem processBatch_eventView (f : Ev → MatchResult) (k : String → Bool)
    (evs : List Ev) (sent : List String) :
    (processBatch f k evs sent).1.filterMap eventView =
      evs.map (fun e => (e.event_id, (f e).matched, (f e).segment_id)) := by
  induction evs generalizing sent with
  | nil => simp [processBatch]
  | cons e es ih =>
    simp only [processBatch, List.filterMap_append, List.map_cons]
    rw [processEvent_eventView, ih]
    rfl

theorem processBatch_segIds (f : Ev → MatchResult) (k : String → Bool)
    (evs : List Ev) (sent : List String) :
    (processBatch f k evs sent).2 =
        ((processBatch f k evs sent).1.filterMap segIdOf).reverse ++ sent ∧
      (∀ sid ∈ (processBatch f k evs sent).1.filterMap segIdOf, sid ∉ sent) ∧
      ((processBatch f k evs sent).1.filterMap segIdOf).Nodup := by
  induction evs generalizing sent with
  | nil => simp [processBatch]
  | cons e es ih =>
    simp only [processBatch, List.filterMap_append]
    rcases processEvent_segIds f k sent e with ⟨h1, h2⟩ | ⟨sid, h1, hmem, h2⟩
    · rw [h1, h2]
      obtain ⟨ih1, ih2, ih3⟩ := ih sent
      simp only [List.nil_append, List.reverse_nil]
      exact ⟨ih1, ih2, ih3⟩
    · rw [h1, h2]
      obtain ⟨ih1, ih2, ih3⟩ := ih (sid :: sent)
      refine ⟨?_, ?_, ?_⟩
      · rw [ih1]
        simp
      · intro s hsmem
        rcases List.mem_append.1 hsmem with hs1 | hs2
        · rw [List.mem_singleton] at hs1
          subst hs1
          exact hmem
        · have hnotin := ih2 s hs2
          intro hcon
          exact hnotin (List.mem_cons_of_mem _ hcon)
      · rw [List.singleton_append, List.nodup_cons]
        exact ⟨fun hcon => ih2 sid hcon (List.mem_cons_self _ _), ih3⟩

theorem streamBatches_eventView (f : Ev → MatchResult) (k : String → Bool)
    (total : ℕ) (bs : List (List Ev)) (done : ℕ) (sent : List String) :
    (streamBatches f k total bs done sent).filterMap eventView =
      bs.flatten.map (fun e => (e.event_id, (f e).matched, (f e).segment_id)) := by
  induction bs generalizing done sent with
  | nil => simp [streamBatches, eventView]
  | cons b rest ih =>
    simp only [streamBatches, List.filterMap_append, List.filterMap_cons, List.flatten_cons,
      List.map_append, eventView]
    rw [processBatch_eventView, ih]

theorem streamBatches_segIds (f : Ev → MatchResult) (k : String → Bool)
    (total : ℕ) (bs : List (List Ev)) (done : ℕ) (sent : List String) :
    (∀ sid ∈ (streamBatches f k total bs done sent).filterMap segIdOf, sid ∉ sent) ∧
    ((streamBatches f k total bs done sent).filterMap segIdOf).Nodup := by
  induction bs generalizing done sent with
  | nil => simp [streamBatches, segIdOf]
  | cons b rest ih =>
    simp only [streamBatches, List.filterMap_append, List.filterMap_cons, segIdOf]
    obtain ⟨pb1, pb2, pb3⟩ := processBatch_segIds f k b sent
    obtain ⟨ih1, ih2⟩ := ih (done + b.length) (processBatch f k b sent).2
    constructor
    · intro s hsmem
      rcases List.mem_append.1 hsmem with hs1 | hs2
      · exact pb2 s hs1
      · intro hcon
        refine ih1 s hs2 ?_
        rw [pb1]
        exact List.mem_append_right _ hcon
    · rw [List.nodup_append]
      refine ⟨pb3, ih2, ?_⟩
      intro s hs1 hs2
      refine ih1 s hs2 ?_
      rw [pb1]
      exact List.mem_append_left _ (List.mem_reverse.2 hs1)

theorem sbe_event_cons (a : String) (b : Bool) (c : Option String) (l : List Msg) :
    segBeforeEvent (Msg.event a b c :: l) = segBeforeEvent l := rfl

theorem sbe_seg_event_cons (sid a : String) (c : Option String) (l : List Msg)
    (hc : c = some sid) :
    segBeforeEvent (Msg.segment sid :: Msg.event a true c :: l) = segBeforeEvent l := by
  subst hc
  simp [segBeforeEvent]

theorem processBatch_sbe (f : Ev → MatchResult) (k : String → Bool)
    (evs : List Ev) (sent : List String) (rest : List Msg)
    (h : segBeforeEvent rest = true) :
    segBeforeEvent ((processBatch f k evs sent).1 ++ rest) = true := by
  induction evs generalizing sent rest with
  | nil => simpa [processBatch]
  | cons e es ih =>
    simp only [processBatch, List.append_assoc]
    rcases processEvent_shape f k sent e with ⟨h1, -⟩ | ⟨sid, hm, hs, -, h1, -⟩
    · rw [h1, List.singleton_append, sbe_event_cons]
      exact ih _ _ h
    · rw [h1, hm]
      rw [List.cons_append, List.cons_append, sbe_seg_event_cons _ _ _ _ hs]
      exact ih _ _ h

theorem streamBatches_sbe (f : Ev → MatchResult) (k : String → Bool)
    (total : ℕ) (bs : List (List Ev)) (done : ℕ) (sent : List String) :
    segBeforeEvent (streamBatches f k total bs done sent) = true := by
  induction bs generalizing done sent with
  | nil => simp [streamBatches, segBeforeEvent]
  | cons b rest ih =>
    simp only [streamBatches]
    refine processBatch_sbe f k b sent _ ?_
    show segBeforeEvent (streamBatches f k total rest _ _) = true
    exact ih _ _

theorem ebp_append (l1 l2 : List Msg) (h2 : eventBeforeProgress l2 = true)
    (hp : l2.any isProgress = true) : eventBeforeProgress (l1 ++ l2) = true := by
  induction l1 with
  | nil => simpa
  | cons m l ih =>
    cases m with
    | segment s => exact ih
    | progress x y z => exact ih
    | complete x y => exact ih
    | event a b c =>
      show (List.any (l ++ l2) isProgress && eventBeforeProgress (l ++ l2)) = true
      rw [List.any_append, hp, ih]
      simp

theorem streamBatches_ebp (f : Ev → MatchResult) (k : String → Bool)
    (total : ℕ) (bs : List (List Ev)) (done : ℕ) (sent : List String) :
    eventBeforeProgress (streamBatches f k total bs done sent) = true := by
  induction bs generalizing done sent with
  | nil => simp [streamBatches, eventBeforeProgress]
  | cons b rest ih =>
    simp only [streamBatches]
    refine ebp_append _ _ ?_ ?_
    · show eventBeforeProgress (streamBatches f k total rest _ _) = true
      exact ih _ _
    · simp [isProgress]

theorem chunksGo_flatten (bs fuel : ℕ) (l : List Ev) :
    (chunksGo bs fuel l).flatten = l := by
  induction fuel generalizing l with
  | zero => cases l <;> simp [chunksGo]
  | succ n ih =>
    cases l with
    | nil => simp [chunksGo]
    | cons e es =>
      show List.take bs (e :: es) ++ (chunksGo bs n (List.drop bs (e :: es))).flatten =
        e :: es
      rw [ih, List.take_append_drop]

theorem chunks_flatten (bs : ℕ) (l : List Ev) : (chunks bs l).flatten = l :=
  chunksGo_flatten bs l.length l

/-- Claim C4: in every streaming session (one run of `stream_events`, with
per-batch size at least 1, as the endpoint validates), (a) the `segment`
geometry message for a given segment id is emitted at most once, however
many events match that id; (b) each `segment` message is emitted immediately
before the matched `event` message it belongs to; (c) every `event` message
is followed later in the stream by its batch's `progress` message; and
(d) one `event` message is emitted per input event, in order, carrying its
match outcome — so event messages for an already-announced id keep being
emitted. -/
theorem stream_segment_dedup_and_ordering (matchFn : Ev → MatchResult)
    (segKnown : String → Bool) (batch_size : ℕ) (events : List Ev)
    (hbs : 1 ≤ batch_size) :
    ((stream_events matchFn segKnown batch_size events).filterMap segIdOf).Nodup ∧
    segBeforeEvent (stream_events matchFn segKnown batch_size events) = true ∧
    eventBeforeProgress (stream_events matchFn segKnown batch_size events) = true ∧
    (stream_events matchFn segKnown batch_size events).filterMap eventView =
      events.map (fun e => (e.event_id, (matchFn e).matched, (matchFn e).segment_id)) := by
  by_cases hev : events = []
  · subst hev
    simp [stream_events, segIdOf, eventView, segBeforeEvent, eventBeforeProgress]
  · unfold stream_events
    rw [if_neg hev]
    refine ⟨(streamBatches_segIds matchFn segKnown _ _ _ _).2,
      streamBatches_sbe matchFn segKnown _ _ _ _,
      streamBatches_ebp matchFn segKnown _ _ _ _, ?_⟩
    rw [streamBatches_eventView, chunks_flatten]

/-- The concrete match outcomes used by the C4 witness: two events matching
the same segment `s0`, one unmatched. -/
def matchFn0 : Ev → MatchResult := fun e =>
  if e.event_id = "e3" then { matched := false }
  else
    { matched := true
      segment_id := some "s0"
      display_segment_key := some "s0"
      directed_id := some "s0:fwd"
      snapped_lon := some 0
      snapped_lat := some 0 }

/-- The concrete event sequence used by the C4 witness. -/
def events0 : List Ev := [⟨"e1", 0, 0, none⟩, ⟨"e2", 0, 0, none⟩, ⟨"e3", 1, 1, none⟩]

/-- Witness for claim C4 at a concrete three-event session with batch size
2, where two events match the same segment. -/
theorem stream_segment_dedup_and_ordering_witness :
    1 ≤ 2 ∧
    (((stream_events matchFn0 (fun _ => true) 2 events0).filterMap segIdOf).Nodup ∧
     segBeforeEvent (stream_events matchFn0 (fun _ => true) 2 events0) = true ∧
     eventBeforeProgress (stream_events matchFn0 (fun _ => true) 2 events0) = true ∧
     (stream_events matchFn0 (fun _ => true) 2 events0).filterMap eventView =
       events0.map (fun e => (e.event_id, (matchFn0 e).matched, (matchFn0 e).segment_id))) :=
  ⟨by norm_num,
    stream_segment_dedup_and_ordering matchFn0 (fun _ => true) 2 events0 (by norm_num)⟩

/-! ### Claim C7: `RoadMatcher._compute_bearing`, over `ℝ` -/

/-- A point of the plane, for the real-valued bearing development. -/
abbrev RPt : Type := ℝ × ℝ

/-- Length of one polyline segment. -/
noncomputable def segLenR (a b : RPt) : ℝ :=
  Real.sqrt ((b.1 - a.1) ^ 2 + (b.2 - a.2) ^ 2)

/-- Total arc length of a polyline. -/
noncomputable def polyLengthR : List RPt → ℝ
  | a :: b :: rest => segLenR a b + polyLengthR (b :: rest)
  | _ => 0

/-- Squared distance over `ℝ`. -/
noncomputable def sqDistR (a b : RPt) : ℝ := (a.1 - b.1) ^ 2 + (a.2 - b.2) ^ 2

/-- The point of the segment `[a, b]` at parameter `t ∈ [0, 1]`. -/
noncomputable def segPointR (a b : RPt) (t : ℝ) : RPt :=
  (a.1 + t * (b.1 - a.1), a.2 + t * (b.2 - a.2))

/-- Clamped projection parameter of `p` onto the segment `[a, b]`. -/
noncomputable def segParamR (a b p : RPt) : ℝ :=
  let den := (b.1 - a.1) ^ 2 + (b.2 - a.2) ^ 2
  if den = 0 then 0
  else min 1 (max 0 (((p.1 - a.1) * (b.1 - a.1) + (p.2 - a.2) * (b.2 - a.2)) / den))

/-- Point of a polyline at arc length `s ≥ 0` from its start (the semantics
of shapely `interpolate` for in-range arc lengths; zero-length segments are
skipped, arc lengths past the end clamp to the last vertex). -/
noncomputable def interpAtR : List RPt → ℝ → RPt
  | [], _ => (0, 0)
  | [a], _ => a
  | a :: b :: rest, s =>
    if segLenR a b = 0 then interpAtR (b :: rest) s
    else if s ≤ segLenR a b then segPointR a b (s / segLenR a b)
    else interpAtR (b :: rest) (s - segLenR a b)

/-- `line.interpolate(u, normalized=True)` for `u ∈ [0, 1]`. -/
noncomputable def interpNormR (l : List RPt) (u : ℝ) : RPt :=
  interpAtR l (u * polyLengthR l)

/-- Arc length of the closest point of the polyline to `p`, together with
its squared distance (the semantics of `line.project(point)`; earlier
segments win ties). -/
noncomputable def projArcR : List RPt → RPt → ℝ × ℝ
  | a :: b :: rest, p =>
    let t := segParamR a b p
    let dsq := sqDistR (segPointR a b t) p
    let rec2 := projArcR (b :: rest) p
    if rec2.2 < dsq then (segLenR a b + rec2.1, rec2.2) else (t * segLenR a b, dsq)
  | [a], p => (0, sqDistR a p)
  | [], _ => (0, 0)

/-- `line.project(point, normalized=True)`: normalised arc-length position
of the closest point. -/
noncomputable def projFractionR (l : List RPt) (p : RPt) : ℝ :=
  if polyLengthR l = 0 then 0 else (projArcR l p).1 / polyLengthR l

/-- Python `math.atan2(y, x)` over `ℝ`. -/
noncomputable def atan2R (y x : ℝ) : ℝ :=
  if 0 < x then Real.arctan (y / x)
  else if x < 0 then
    (if 0 ≤ y then Real.arctan (y / x) + Real.pi else Real.arctan (y / x) - Real.pi)
  else
    (if 0 < y then Real.pi / 2 else if y < 0 then -(Real.pi / 2) else 0)

/-- Python `math.degrees`. -/
noncomputable def degreesR (x : ℝ) : ℝ := x * 180 / Real.pi

/-- Python float `%` with a positive modulus, over `ℝ`. -/
noncomputable def realMod (a b : ℝ) : ℝ := a - b * ⌊a / b⌋

/-- `RoadMatcher._compute_bearing` (src/server/matching.py lines 121-139):
project the point onto the line (normalised), take two points straddling
that position at normalised arc-length offset 0.01 clamped to `[0, 1]`,
and return `degrees(atan2(dx, dy)) % 360` where `dx`, `dy` is the delta of
the two interpolated points *in the line's own geographic coordinates* (the
line is never re-projected to the metric frame here). -/
noncomputable def computeBearingR (line : List RPt) (point : RPt) : ℝ :=
  let projected := projFractionR line point
  let p1 := interpNormR line (max 0 (projected - 1/100))
  let p2 := interpNormR line (min 1 (projected + 1/100))
  let dx := p2.1 - p1.1
  let dy := p2.2 - p1.2
  realMod (degreesR (atan2R dx dy)) 360

/-- Modelled from the spec (4.1 `bearingNear(polyline, fraction)`), with the
delta taken on the geographic coordinates — the amended reading that the
code implements: two points straddling the position at the fixed arc-length
offset 0.01 clamped to `[0, 1]`, degrees clockwise from north via
`atan2(Δx, Δy)`, result in `[0, 360)`. -/
noncomputable def bearingNearGeo (line : List RPt) (fraction : ℝ) : ℝ :=
  let p1 := interpNormR line (max 0 (fraction - 1/100))
  let p2 := interpNormR line (min 1 (fraction + 1/100))
  realMod (degreesR (atan2R (p2.1 - p1.1) (p2.2 - p1.2))) 360

/-- Modelled from the spec (4.1 `bearingNear`, literal reading): the same
construction but with `atan2(Δx, Δy)` taken "on the metric-frame delta",
i.e. after applying the metric projection to the two straddling points. -/
noncomputable def bearingNearMetric (toMetric : RPt → RPt) (line : List RPt)
    (fraction : ℝ) : ℝ :=
  let p1 := toMetric (interpNormR line (max 0 (fraction - 1/100)))
  let p2 := toMetric (interpNormR line (min 1 (fraction + 1/100)))
  realMod (degreesR (atan2R (p2.1 - p1.1) (p2.2 - p1.2))) 360

theorem realMod_nonneg (a : ℝ) {b : ℝ} (hb : 0 < b) : 0 ≤ realMod a b := by
  have : realMod a b = b * Int.fract (a / b) := by
    unfold realMod
    rw [Int.fract]
    field_simp
  rw [this]
  exact mul_nonneg hb.le (Int.fract_nonneg _)

theorem realMod_lt (a : ℝ) {b : ℝ} (hb : 0 < b) : realMod a b < b := by
  have : realMod a b = b * Int.fract (a / b) := by
    unfold realMod
    rw [Int.fract]
    field_simp
  rw [this]
  calc b * Int.fract (a / b) < b * 1 :=
        mul_lt_mul_of_pos_left (Int.fract_lt_one _) hb
    _ = b := mul_one b

/-- Claim C7 (amended): for every polyline and query point, the bearing of
`_compute_bearing` is `bearingNear(polyline, fraction)` at the projected
fraction, computed from the two points straddling the position at the fixed
arc-length offset 0.01 clamped to `[0, 1]`, measured in degrees clockwise
from north via `atan2(Δx, Δy)` on the *geographic-coordinate* delta (not
the metric-frame delta — see `bearing_metric_delta_refuted`), and the
result always lies in `[0, 360)`. -/
theorem bearing_formula_and_range (line : List RPt) (p : RPt) :
    computeBearingR line p = bearingNearGeo line (projFractionR line p) ∧
    0 ≤ computeBearingR line p ∧ computeBearingR line p < 360 := by
  refine ⟨rfl, ?_, ?_⟩
  · exact realMod_nonneg _ (by norm_num)
  · exact realMod_lt _ (by norm_num)

/-- The diagonal test polyline of the C7 counterexample. -/
noncomputable def line0R : List RPt := [(0, 0), (1, 1)]

theorem segLen_line0 : segLenR ((0, 0) : RPt) ((1, 1) : RPt) = Real.sqrt 2 := by
  unfold segLenR
  norm_num

theorem sqrt2_pos : (0 : ℝ) < Real.sqrt 2 := Real.sqrt_pos.2 (by norm_num)

theorem polyLen_line0 : polyLengthR line0R = Real.sqrt 2 := by
  have h : polyLengthR line0R = segLenR ((0, 0) : RPt) ((1, 1) : RPt) + 0 := rfl
  rw [h, add_zero, segLen_line0]

theorem projArc_line0 : (projArcR line0R ((1/2, 1/2) : RPt)).1 = 1/2 * Real.sqrt 2 := by
  have h : projArcR line0R ((1/2, 1/2) : RPt) =
      (if sqDistR ((1, 1) : RPt) (1/2, 1/2) <
          sqDistR (segPointR (0, 0) (1, 1) (segParamR (0, 0) (1, 1) (1/2, 1/2))) (1/2, 1/2)
       then (segLenR (0, 0) (1, 1) + 0, sqDistR ((1, 1) : RPt) (1/2, 1/2))
       else (segParamR (0, 0) (1, 1) (1/2, 1/2) * segLenR (0, 0) (1, 1),
         sqDistR (segPointR (0, 0) (1, 1) (segParamR (0, 0) (1, 1) (1/2, 1/2)))
           (1/2, 1/2))) := rfl
  have hparam : segParamR ((0, 0) : RPt) (1, 1) (1/2, 1/2) = 1/2 := by
    unfold segParamR
    norm_num
  have hpt : segPointR ((0, 0) : RPt) (1, 1) (1/2) = (1/2, 1/2) := by
    unfold segPointR
    norm_num
  have hd0 : sqDistR ((1/2, 1/2) : RPt) (1/2, 1/2) = 0 := by
    unfold sqDistR
    norm_num
  have hd1 : sqDistR ((1, 1) : RPt) (1/2, 1/2) = 1/2 := by
    unfold sqDistR
    norm_num
  rw [h, hparam, hpt, hd0, hd1, if_neg (by norm_num : ¬ ((1 : ℝ)/2 < 0)),
    segLen_line0]

theorem projFraction_line0 : projFractionR line0R ((1/2, 1/2) : RPt) = 1/2 := by
  unfold projFractionR
  rw [polyLen_line0, if_neg sqrt2_pos.ne.symm, projArc_line0]
  field_simp
  ring

theorem interp_line0 {u : ℝ} (h0 : 0 ≤ u) (h1 : u ≤ 1) :
    interpNormR line0R u = (u, u) := by
  unfold interpNormR
  rw [polyLen_line0]
  have h : interpAtR line0R (u * Real.sqrt 2) =
      (if segLenR ((0, 0) : RPt) (1, 1) = 0 then interpAtR [((1, 1) : RPt)] (u * Real.sqrt 2)
       else if u * Real.sqrt 2 ≤ segLenR ((0, 0) : RPt) (1, 1) then
         segPointR (0, 0) (1, 1) (u * Real.sqrt 2 / segLenR (0, 0) (1, 1))
       else interpAtR [((1, 1) : RPt)] (u * Real.sqrt 2 - segLenR (0, 0) (1, 1))) := rfl
  rw [h, segLen_line0, if_neg sqrt2_pos.ne.symm,
    if_pos (by nlinarith [sqrt2_pos] : u * Real.sqrt 2 ≤ Real.sqrt 2)]
  unfold segPointR
  have hu : u * Real.sqrt 2 / Real.sqrt 2 = u := by
    field_simp
  rw [hu]
  norm_num

theorem computeBearing_line0 : computeBearingR line0R ((1/2, 1/2) : RPt) = 45 := by
  have h : computeBearingR line0R ((1/2, 1/2) : RPt) =
      realMod (degreesR (atan2R
        ((interpNormR line0R (min 1 (projFractionR line0R (1/2, 1/2) + 1/100))).1 -
          (interpNormR line0R (max 0 (projFractionR line0R (1/2, 1/2) - 1/100))).1)
        ((interpNormR line0R (min 1 (projFractionR line0R (1/2, 1/2) + 1/100))).2 -
          (interpNormR line0R (max 0 (projFractionR line0R (1/2, 1/2) - 1/100))).2))) 360 :=
    rfl
  rw [h, projFraction_line0]
  rw [show max (0 : ℝ) (1/2 - 1/100) = 49/100 by
    rw [max_eq_right (by norm_num)]; norm_num]
  rw [show min (1 : ℝ) (1/2 + 1/100) = 51/100 by
    rw [min_eq_right (by norm_num)]; norm_num]
  rw [interp_line0 (by norm_num) (by norm_num), interp_line0 (by norm_num) (by norm_num)]
  have hsub1 : ((51/100 : ℝ), (51/100 : ℝ)).1 - ((49/100 : ℝ), (49/100 : ℝ)).1 = 1/50 := by
    norm_num
  rw [hsub1]
  have hat : atan2R (1/50) (1/50) = Real.pi / 4 := by
    unfold atan2R
    rw [if_pos (by norm_num : (0 : ℝ) < 1/50)]
    norm_num [Real.arctan_one]
  rw [hat]
  have hdeg : degreesR (Real.pi / 4) = 45 := by
    unfold degreesR
    field_simp
    ring
  rw [hdeg]
  unfold realMod
  rw [show (45 : ℝ) / 360 = 1/8 by norm_num]
  norm_num

theorem metricBearing_line0 :
    bearingNearMetric (fun q => (111320 * q.1, 222640 * q.2)) line0R (1/2) =
      realMod (degreesR (Real.arctan (1/2))) 360 := by
  have h : bearingNearMetric (fun q => (111320 * q.1, 222640 * q.2)) line0R (1/2) =
      realMod (degreesR (atan2R
        (111320 * (interpNormR line0R (min 1 ((1 : ℝ)/2 + 1/100))).1 -
          111320 * (interpNormR line0R (max 0 ((1 : ℝ)/2 - 1/100))).1)
        (222640 * (interpNormR line0R (min 1 ((1 : ℝ)/2 + 1/100))).2 -
          222640 * (interpNormR line0R (max 0 ((1 : ℝ)/2 - 1/100))).2))) 360 := rfl
  rw [h]
  rw [show max (0 : ℝ) (1/2 - 1/100) = 49/100 by
    rw [max_eq_right (by norm_num)]; norm_num]
  rw [show min (1 : ℝ) (1/2 + 1/100) = 51/100 by
    rw [min_eq_right (by norm_num)]; norm_num]
  rw [interp_line0 (by norm_num) (by norm_num), interp_line0 (by norm_num) (by norm_num)]
  have hsubx : (111320 : ℝ) * ((51/100 : ℝ), (51/100 : ℝ)).1 -
      111320 * ((49/100 : ℝ), (49/100 : ℝ)).1 = 11132/5 := by
    norm_num
  have hsuby : (222640 : ℝ) * ((51/100 : ℝ), (51/100 : ℝ)).2 -
      222640 * ((49/100 : ℝ), (49/100 : ℝ)).2 = 22264/5 := by
    norm_num
  rw [hsubx, hsuby]
  have hat : atan2R (11132/5) (22264/5) = Real.arctan (1/2) := by
    unfold atan2R
    rw [if_pos (by norm_num : (0 : ℝ) < 22264/5)]
    norm_num
  rw [hat]

theorem arctanHalf_pos : 0 < Real.arctan (1/2) := by
  have h := Real.arctan_strictMono (show (0 : ℝ) < 1/2 by norm_num)
  rwa [Real.arctan_zero] at h

theorem arctanHalf_lt : Real.arctan (1/2) < Real.pi / 4 := by
  have h := Real.arctan_strictMono (show (1 : ℝ)/2 < 1 by norm_num)
  rwa [Real.arctan_one] at h

theorem degArctanHalf_bounds :
    0 < degreesR (Real.arctan (1/2)) ∧ degreesR (Real.arctan (1/2)) < 45 := by
  unfold degreesR
  constructor
  · exact div_pos (mul_pos arctanHalf_pos (by norm_num)) Real.pi_pos
  · rw [div_lt_iff Real.pi_pos]
    nlinarith [arctanHalf_lt, Real.pi_pos]

theorem realMod_id_small {v : ℝ} (h0 : 0 ≤ v) (h1 : v < 360) : realMod v 360 = v := by
  unfold realMod
  have hfl : ⌊v / 360⌋ = 0 := by
    rw [Int.floor_eq_zero_iff, Set.mem_Ico]
    constructor
    · positivity
    · rw [div_lt_one (by norm_num)]
      linarith
  rw [hfl]
  simp

/-- Counterexample to claim C7 as stated: on the diagonal polyline from
(0, 0) to (1, 1) at the query point (0.5, 0.5), `_compute_bearing` returns
45° (the geographic-coordinate delta is equal in both axes), whereas the
spec's "atan2(Δx, Δy) on the metric-frame delta", for a metric projection
that scales the axes anisotropically as Web Mercator does off the equator
(here x·111320, y·222640, i.e. the local Mercator scales at 60° latitude),
yields `degrees(arctan(1/2)) < 45°` — the code's bearing is computed on the
geographic delta, not the metric-frame delta. -/
theorem bearing_metric_delta_refuted :
    computeBearingR line0R ((1/2, 1/2) : RPt) ≠
      bearingNearMetric (fun q => (111320 * q.1, 222640 * q.2)) line0R
        (projFractionR line0R ((1/2, 1/2) : RPt)) := by
  rw [computeBearing_line0, projFraction_line0, metricBearing_line0]
  obtain ⟨hb0, hb45⟩ := degArctanHalf_bounds
  rw [realMod_id_small hb0.le (by linarith)]
  exact ne_of_gt hb45
